import Mathlib

set_option maxHeartbeats 1000000

/-! # Verification of the manus event-distribution and agent-loop core

Shallow embedding of `src/manus/channel.py` (SSE fan-out bus and event
generator) and `src/manus/loop.py` (agent iteration loop, message routing),
together with proofs of the behavioural properties stated in the design
document.  Collaborators of the repository that live outside `src/manus`
(the nanobot base classes for message-context building, session history and
the engine's caller) are modelled from the specification and marked as such
in their doc comments. -/

/-! ## JSON-like metadata values

Events travel as `OutboundMessage`s whose `metadata` is a Python dict of
string keys to JSON-serialisable values; association lists with
first-binding-wins lookup model those dicts. -/

/-- A JSON-serialisable value as carried in event metadata dicts. -/
inductive JsonVal : Type
  | str (s : String)
  | num (n : Nat)
  | bool (b : Bool)
  | null
  | obj (fields : List (String × JsonVal))

/-- Association-list lookup, first binding wins: the model of `d.get(k)`. -/
def alistGet {κ α : Type} [DecidableEq κ] : List (κ × α) → κ → Option α
  | [], _ => none
  | p :: rest, k => if p.1 = k then some p.2 else alistGet rest k

/-- Replace the value at an existing key in place, else append the binding:
the model of `{**d, k: v}` / `d[k] = v`. -/
def alistSet {κ α : Type} [DecidableEq κ] : List (κ × α) → κ → α → List (κ × α)
  | [], k, v => [(k, v)]
  | p :: rest, k, v => if p.1 = k then (k, v) :: rest else p :: alistSet rest k v

/-- Apply `f` to the value bound at `k` (first binding), if any. -/
def alistModify {κ α : Type} [DecidableEq κ] : List (κ × α) → κ → (α → α) → List (κ × α)
  | [], _, _ => []
  | p :: rest, k, f => if p.1 = k then (p.1, f p.2) :: rest else p :: alistModify rest k f

/-- Remove the binding at `k` (first binding), if any: the model of `del d[k]`. -/
def alistRemove {κ α : Type} [DecidableEq κ] : List (κ × α) → κ → List (κ × α)
  | [], _ => []
  | p :: rest, k => if p.1 = k then rest else p :: alistRemove rest k

/-- Python truthiness of a JSON value, used by `metadata.get("timestamp") or now`. -/
def jsonFalsy : JsonVal → Bool
  | JsonVal.str s => s == ""
  | JsonVal.num n => n == 0
  | JsonVal.bool b => !b
  | JsonVal.null => true
  | JsonVal.obj l => l.isEmpty

/-- An outbound event message as published on the bus (`nanobot.bus.events
.OutboundMessage`, as constructed throughout `src/manus/loop.py`). -/
structure OutboundMessage where
  channel : String
  chat_id : String
  content : String
  metadata : List (String × JsonVal)

/-- The `event_type` carried in a message's metadata, defaulting to
`"message"` exactly as `msg.metadata.get("event_type", "message")` does in
`ManusWebChannel._event_generator`. -/
def eventTypeVal (msg : OutboundMessage) : JsonVal :=
  (alistGet msg.metadata "event_type").getD (JsonVal.str "message")

/-- Whether a JSON value is the given string. -/
def jsonIsStr : JsonVal → String → Bool
  | JsonVal.str s, t => s == t
  | _, _ => false

/-- Number of events in a stream whose `event_type` metadata is the string `t`. -/
def countEventType (evs : List OutboundMessage) (t : String) : Nat :=
  (evs.filter (fun e => jsonIsStr (eventTypeVal e) t)).length

/-- The `iteration` index carried in a message's metadata, if present. -/
def iterationOf (msg : OutboundMessage) : Option Nat :=
  match alistGet msg.metadata "iteration" with
  | some (JsonVal.num n) => some n
  | _ => none

/-! ## The per-conversation fan-out bus (`ManusWebChannel`, channel.py)

`_event_queues : dict[str, list[asyncio.Queue]]` maps a chat id to the
queues of its live SSE subscribers.  Queues are identified here by sink ids
(`Nat`); `received` is each sink's queue content in arrival order, i.e. the
totality of envelopes ever `put` into that sink's queue. -/

/-- The channel's shared state: the subscription registry and, per sink,
the envelopes delivered to it in arrival order. -/
structure BusState where
  queues : List (String × List Nat)
  received : List (Nat × List OutboundMessage)

/-- The channel state before any subscriber connects. -/
def initBus : BusState := { queues := [], received := [] }

/-- `self._event_queues.setdefault(chat_id, []).append(queue)` from
`_event_generator`: append the sink to the chat id's group, creating the
group if absent. -/
def setdefaultAppend : List (String × List Nat) → String → Nat → List (String × List Nat)
  | [], k, sid => [(k, [sid])]
  | p :: rest, k, sid =>
    if p.1 = k then (p.1, p.2 ++ [sid]) :: rest else p :: setdefaultAppend rest k sid

/-- The sinks currently registered under a chat id (empty when the key is absent). -/
def qlist (s : BusState) (cid : String) : List Nat := (alistGet s.queues cid).getD []

/-- Put `msg` into the queue of every sink in `sids`, in order. -/
def deliver (received : List (Nat × List OutboundMessage)) (sids : List Nat)
    (msg : OutboundMessage) : List (Nat × List OutboundMessage) :=
  sids.foldl (fun r sid => alistModify r sid (fun q => q ++ [msg])) received

/-- A new subscriber registers: `ManusWebChannel._event_generator` lines 98-99
(fresh queue, `setdefault(chat_id, []).append(queue)`). -/
def subscribeOp (s : BusState) (cid : String) (sid : Nat) : BusState :=
  { queues := setdefaultAppend s.queues cid sid, received := s.received ++ [(sid, [])] }

/-- `ManusWebChannel.send`: put the message into every queue registered
under `msg.chat_id`, then into every queue registered under `"*"`. -/
def publishOp (s : BusState) (msg : OutboundMessage) : BusState :=
  { s with received := deliver (deliver s.received (qlist s msg.chat_id) msg) (qlist s "*") msg }

/-- The `finally` block of `_event_generator`: if the chat id has a group,
remove this sink from it if present, then delete the group if it is empty. -/
def unsubscribeOp (s : BusState) (cid : String) (sid : Nat) : BusState :=
  match alistGet s.queues cid with
  | none => s
  | some lst =>
    let lst' := if sid ∈ lst then lst.erase sid else lst
    if lst' = [] then { s with queues := alistRemove s.queues cid }
    else { s with queues := alistSet s.queues cid lst' }

/-- One operation on the channel's shared registry. -/
inductive BusOp : Type
  | subscribe (cid : String) (sid : Nat)
  | publish (msg : OutboundMessage)
  | unsubscribe (cid : String) (sid : Nat)

/-- Interpret one bus operation. -/
def busStep (s : BusState) : BusOp → BusState
  | BusOp.subscribe cid sid => subscribeOp s cid sid
  | BusOp.publish msg => publishOp s msg
  | BusOp.unsubscribe cid sid => unsubscribeOp s cid sid

/-- Run a sequence of bus operations from a state. -/
def runOps : List BusOp → BusState → BusState
  | [], s => s
  | op :: rest, s => runOps rest (busStep s op)

/-- The envelopes a sink has received, in arrival order. -/
def sinkReceived (s : BusState) (sid : Nat) : List OutboundMessage :=
  (alistGet s.received sid).getD []

/-! Specification side for claim C1: which sinks are subscribed to which
conversation, read off the operation trace alone, and the envelopes a sink
is entitled to — those published while it was subscribed, in publish order. -/

/-- Specification view of one operation on the set of live (sink, conversation)
subscriptions. -/
def specStep (subs : List (Nat × String)) : BusOp → List (Nat × String)
  | BusOp.subscribe cid sid => subs ++ [(sid, cid)]
  | BusOp.publish _ => subs
  | BusOp.unsubscribe cid sid =>
    subs.filter (fun p => !(decide (p.1 = sid) && decide (p.2 = cid)))

/-- The envelopes sink `sid` is entitled to over the trace, starting from the
given live subscriptions: exactly the messages published while `sid` is
subscribed to the message's conversation id or to the wildcard, in publish
order. -/
def expectedFrom (subs : List (Nat × String)) (sid : Nat) : List BusOp → List OutboundMessage
  | [] => []
  | op :: rest =>
    match op with
    | BusOp.publish msg =>
      (if (sid, msg.chat_id) ∈ subs ∨ (sid, "*") ∈ subs then [msg] else []) ++
        expectedFrom subs sid rest
    | _ => expectedFrom (specStep subs op) sid rest

/-- The sink ids introduced by the subscribe operations of a trace, in order. -/
def subSids : List BusOp → List Nat
  | [] => []
  | BusOp.subscribe _ sid :: rest => sid :: subSids rest
  | _ :: rest => subSids rest

/-- A publish operation's conversation id is not the reserved wildcard key. -/
def pubOk : BusOp → Bool
  | BusOp.publish msg => !(msg.chat_id == "*")
  | _ => true

/-- Well-formed trace: every subscriber connection uses a fresh sink (each
`_event_generator` call allocates a fresh `asyncio.Queue`), and publishes
target real conversation ids, not the reserved wildcard key. -/
def WFops (ops : List BusOp) : Prop :=
  (subSids ops).Nodup ∧ ops.all pubOk = true

/-- All sink ids present anywhere in the registry. -/
def allSids (qs : List (String × List Nat)) : List Nat := (qs.map Prod.snd).flatten

/-- No conversation keeps an empty subscriber group (§3 registry invariant). -/
def noEmptyGroups (s : BusState) : Prop :=
  ∀ cid lst, (cid, lst) ∈ s.queues → lst ≠ []

/-! ## The streaming handler (`_event_generator`, channel.py)

The consume loop's exit paths and the records it serialises. -/

/-- How the consume loop of `_event_generator` can exit: the `while True`
body completes by generator close, is cancelled (`asyncio.CancelledError`),
or raises an unexpected exception (`except Exception`). -/
inductive ExitPath : Type
  | completed
  | cancelled
  | error (e : String)

/-- The effect of leaving `_event_generator` on each exit path: the
`CancelledError` branch re-raises and the `Exception` branch only logs, so
every path falls through to the same `finally` block, which unregisters the
sink. -/
def generatorFinish (p : ExitPath) (s : BusState) (cid : String) (sid : Nat) : BusState :=
  match p with
  | ExitPath.completed => unsubscribeOp s cid sid
  | ExitPath.cancelled => unsubscribeOp s cid sid
  | ExitPath.error _ => unsubscribeOp s cid sid

/-- The synthetic first record of a stream:
`{'event_type': 'connected', 'chat_id': chat_id}` (channel.py line 102). -/
def connected_record (chat_id : String) : List (String × JsonVal) :=
  [("event_type", JsonVal.str "connected"), ("chat_id", JsonVal.str chat_id)]

/-- The record serialised for one consumed envelope (channel.py lines 105-117):
`event_type` from metadata defaulting to `"message"`, the content, the whole
metadata mapping, the metadata timestamp or the current time, and the
envelope's chat id. -/
def event_record (now : String) (msg : OutboundMessage) : List (String × JsonVal) :=
  [("event_type", (alistGet msg.metadata "event_type").getD (JsonVal.str "message")),
   ("content", JsonVal.str msg.content),
   ("metadata", JsonVal.obj msg.metadata),
   ("timestamp",
     match alistGet msg.metadata "timestamp" with
     | some v => if jsonFalsy v then JsonVal.str now else v
     | none => JsonVal.str now),
   ("chat_id", JsonVal.str msg.chat_id)]

/-- The consume loop of `_event_generator`, restricted to the finite prefix
of envelopes the subscriber's queue has yielded so far. -/
def consume_loop (now : String) : List OutboundMessage → List (List (String × JsonVal))
  | [] => []
  | msg :: rest => event_record now msg :: consume_loop now rest

/-- The records yielded by `_event_generator` over a finite consumed prefix:
the connected record first, then one record per consumed envelope. -/
def event_generator_output (chat_id now : String) (consumed : List OutboundMessage) :
    List (List (String × JsonVal)) :=
  connected_record chat_id :: consume_loop now consumed

/-! ## The agent iteration loop (`ManusAgentLoop._run_agent_loop`, loop.py)

The provider, tool executor and message-context collaborators are interfaces
(spec section 6); message-context entries mirror the role-tagged dicts the
loop appends. -/

/-- One requested tool call of a model decision (`{id, name, arguments}`);
its JSON argument payload is kept opaque as text. -/
structure ToolCall where
  id : String
  name : String
  arguments : String

/-- A model decision as returned by the provider collaborator:
`decide(...) -> decision{content, reasoning_content?, tool_calls}`. -/
structure ChatResponse where
  content : String
  reasoning_content : Option String
  tool_calls : List ToolCall

/-- Modelled from the spec: the provider response property `has_tool_calls`,
defined outside `src/manus` — true exactly when the decision contains one or
more tool calls (spec sections 4.3 and 6). -/
def ChatResponse.has_tool_calls (r : ChatResponse) : Bool := !r.tool_calls.isEmpty

/-- One role-tagged entry of the evolving message context, mirroring the
dicts appended by the loop. -/
structure ContextEntry where
  role : String
  content : String
  tool_calls : List ToolCall := []
  reasoning_content : Option String := none
  tool_call_id : Option String := none
  name : Option String := none

/-- Modelled from the spec: `self.context.add_assistant_message` of the
nanobot base (not under `src/manus`) — appends one assistant-role entry
carrying the raw tool-call requests (spec section 4.3, step 4). -/
def add_assistant_message (messages : List ContextEntry) (content : String)
    (tool_calls : List ToolCall) (reasoning_content : Option String) : List ContextEntry :=
  messages ++ [{ role := "assistant", content := content, tool_calls := tool_calls,
                 reasoning_content := reasoning_content }]

/-- Modelled from the spec: `self.context.add_tool_result` of the nanobot
base (not under `src/manus`) — appends one tool-role entry with the result
(spec section 4.3, step 4e). -/
def add_tool_result (messages : List ContextEntry) (tool_call_id tool_name result : String) :
    List ContextEntry :=
  messages ++ [{ role := "tool", content := result, tool_call_id := some tool_call_id,
                 name := some tool_name }]

/-- The `thinking` event of loop.py lines 31-39. -/
def mkThinkingEvent (channel chat_id : String) (iter : Nat) : OutboundMessage :=
  { channel := channel, chat_id := chat_id, content := "",
    metadata := [("event_type", JsonVal.str "thinking"), ("iteration", JsonVal.num iter)] }

/-- The reasoning `thinking` event of loop.py lines 50-60. -/
def mkReasoningEvent (channel chat_id content : String) (iter : Nat) : OutboundMessage :=
  { channel := channel, chat_id := chat_id, content := content,
    metadata := [("event_type", JsonVal.str "thinking"), ("is_reasoning", JsonVal.bool true),
                 ("iteration", JsonVal.num iter)] }

/-- The `tool_call` event of loop.py lines 85-96. -/
def mkToolCallEvent (channel chat_id : String) (tc : ToolCall) (iter : Nat) : OutboundMessage :=
  { channel := channel, chat_id := chat_id, content := "",
    metadata := [("event_type", JsonVal.str "tool_call"), ("tool", JsonVal.str tc.name),
                 ("arguments", JsonVal.str tc.arguments), ("tool_call_id", JsonVal.str tc.id),
                 ("iteration", JsonVal.num iter)] }

/-- The `tool_result` event of loop.py lines 101-111. -/
def mkToolResultEvent (channel chat_id : String) (tc : ToolCall) (result : String)
    (iter : Nat) : OutboundMessage :=
  { channel := channel, chat_id := chat_id, content := result,
    metadata := [("event_type", JsonVal.str "tool_result"), ("tool", JsonVal.str tc.name),
                 ("tool_call_id", JsonVal.str tc.id), ("iteration", JsonVal.num iter)] }

/-- The `for tool_call in response.tool_calls` body of loop.py lines 79-115:
returns the threaded message context, the tool names recorded in
`tools_used`, and the emitted events, in order.  The tool executor is the
`self.tools.execute` collaborator; a tool failure is surfaced as the
result's textual content (spec section 7), so it is total here. -/
def runToolCalls (execute : String → String → String) (channel chat_id : String) (iter : Nat) :
    List ToolCall → List ContextEntry →
    List ContextEntry × List String × List OutboundMessage
  | [], messages => (messages, [], [])
  | tc :: rest, messages =>
    let result := execute tc.name tc.arguments
    let messages1 := add_tool_result messages tc.id tc.name result
    let t := runToolCalls execute channel chat_id iter rest messages1
    (t.1, tc.name :: t.2.1,
     mkToolCallEvent channel chat_id tc iter ::
       mkToolResultEvent channel chat_id tc result iter :: t.2.2)

/-- The `while iteration < self.max_iterations` loop of
`ManusAgentLoop._run_agent_loop`, with `fuel = max_iterations - iteration`
remaining passes.  Returns the events published on the bus, in publish
order, and either the provider's error (a raised `provider.chat` exception
propagates after the iteration's `thinking` event was already published) or
`(final_content, tools_used)`. -/
def runAgentLoopAux (chat : List ContextEntry → Except String ChatResponse)
    (execute : String → String → String) (channel chat_id : String) :
    Nat → Nat → List ContextEntry →
    List OutboundMessage × Except String (Option String × List String)
  | 0, _, _ => ([], Except.ok (none, []))
  | fuel + 1, iteration, messages =>
    let iter := iteration + 1
    match chat messages with
    | Except.error e => ([mkThinkingEvent channel chat_id iter], Except.error e)
    | Except.ok response =>
      let reasonEvs :=
        match response.reasoning_content with
        | some rc => if rc = "" then [] else [mkReasoningEvent channel chat_id rc iter]
        | none => []
      if response.has_tool_calls then
        let messages1 := add_assistant_message messages response.content
          response.tool_calls response.reasoning_content
        let t := runToolCalls execute channel chat_id iter response.tool_calls messages1
        let messages3 := t.1 ++
          [{ role := "user", content := "Reflect on the results and decide next steps." }]
        let rest := runAgentLoopAux chat execute channel chat_id fuel iter messages3
        (mkThinkingEvent channel chat_id iter :: reasonEvs ++ t.2.2 ++ rest.1,
         match rest.2 with
         | Except.error e => Except.error e
         | Except.ok p => Except.ok (p.1, t.2.1 ++ p.2))
      else
        (mkThinkingEvent channel chat_id iter :: reasonEvs,
         Except.ok (some response.content, []))

/-- `ManusAgentLoop._run_agent_loop(initial_messages, channel, chat_id)`:
iteration counter starts at 0, bounded by `max_iterations`. -/
def run_agent_loop (chat : List ContextEntry → Except String ChatResponse)
    (execute : String → String → String) (channel chat_id : String)
    (max_iterations : Nat) (initial_messages : List ContextEntry) :
    List OutboundMessage × Except String (Option String × List String) :=
  runAgentLoopAux chat execute channel chat_id max_iterations 0 initial_messages

/-! ## Message routing (`_process_message` / `_process_system_message`, loop.py) -/

/-- Whether a character is ASCII whitespace, as stripped by Python `str.strip()`
on the command strings involved. -/
def isSpaceChar (c : Char) : Bool :=
  c == ' ' || c == '\t' || c == '\n' || c == '\r'

/-- Lower-case an ASCII character, as Python `str.lower()` on the command
strings involved. -/
def lowerChar (c : Char) : Char :=
  if 'A' ≤ c ∧ c ≤ 'Z' then Char.ofNat (c.toNat + 32) else c

/-- `msg.content.strip().lower()` (loop.py line 138). -/
def strip_lower (s : String) : String :=
  String.mk ((((s.data.dropWhile isSpaceChar).reverse.dropWhile isSpaceChar).reverse).map lowerChar)

/-- A persisted conversation session: its key and role-tagged message history. -/
structure Session where
  key : String
  messages : List (String × String)

/-- Modelled from the spec: `session.get_history(max_messages)` of the
history-persistence collaborator (not under `src/manus`) — the most recent
`max_messages` entries. -/
def get_history (s : Session) (max_messages : Nat) : List (String × String) :=
  s.messages.drop (s.messages.length - max_messages)

/-- Modelled from the spec: `self.context.build_messages` of the nanobot base
(not under `src/manus`) — the model context built from the persisted history
followed by the current user message (system-prompt and media details are
outside the core scope). -/
def build_messages (history : List (String × String)) (current : String) : List ContextEntry :=
  (history.map (fun p => { role := p.1, content := p.2 : ContextEntry })) ++
    [{ role := "user", content := current }]

/-- The outcome of processing one inbound unit of work: the events published
while it ran, the terminal reply (or the propagated decision-collaborator
error), the session state afterwards, and the history snapshots handed to
detached (fire-and-forget) background tasks, whose outcome is never awaited. -/
structure ProcessResult where
  events : List OutboundMessage
  reply : Except String OutboundMessage
  session : Session
  spawned : List (List (String × String))

/-- `ManusAgentLoop._process_message` for a non-system inbound message:
slash-command short-circuit, otherwise one engine turn (loop.py lines
137-187).  `inMeta` is the inbound message's metadata, echoed into the
terminal reply with `event_type` forced to `"message"`. -/
def process_message (chat : List ContextEntry → Except String ChatResponse)
    (execute : String → String → String) (channel chat_id content : String)
    (inMeta : List (String × JsonVal)) (session : Session)
    (max_iterations memory_window : Nat) : ProcessResult :=
  let cmd := strip_lower content
  if cmd = "/new" then
    let ack : OutboundMessage :=
      { channel := channel, chat_id := chat_id,
        content := "New session started. Memory consolidation in progress.", metadata := [] }
    { events := [], reply := Except.ok ack,
      session := { session with messages := [] }, spawned := [session.messages] }
  else if cmd = "/help" then
    let helpReply : OutboundMessage :=
      { channel := channel, chat_id := chat_id,
        content := "🐈 nanobot commands:\n/new — Start a new conversation\n/help — Show available commands",
        metadata := [] }
    { events := [], reply := Except.ok helpReply, session := session, spawned := [] }
  else
    let spawned0 := if memory_window < session.messages.length then [session.messages] else []
    let initial := build_messages (get_history session memory_window) content
    let r := run_agent_loop chat execute channel chat_id max_iterations initial
    match r.2 with
    | Except.error e =>
      { events := r.1, reply := Except.error e, session := session, spawned := spawned0 }
    | Except.ok p =>
      let final := p.1.getD "I've completed processing but have no response to give."
      let out : OutboundMessage :=
        { channel := channel, chat_id := chat_id, content := final,
          metadata := alistSet inMeta "event_type" (JsonVal.str "message") }
      { events := r.1, reply := Except.ok out,
        session := { session with
          messages := session.messages ++ [("user", content), ("assistant", final)] },
        spawned := spawned0 }

/-- Split a character list at its first colon, if it has one. -/
def splitFirstColon : List Char → Option (List Char × List Char)
  | [] => none
  | c :: cs =>
    if c = ':' then some ([], cs)
    else match splitFirstColon cs with
      | some p => some (c :: p.1, p.2)
      | none => none

/-- The composite-origin resolution of `_process_system_message` (loop.py
lines 195-201): split the chat id on the first colon into origin channel and
origin chat id; with no colon, default the origin channel to `"cli"`. -/
def resolveOrigin (chat_id : String) : String × String :=
  match splitFirstColon chat_id.data with
  | some p => (String.mk p.1, String.mk p.2)
  | none => ("cli", chat_id)

/-- `ManusAgentLoop._process_system_message` (loop.py lines 189-226): resolve
the composite origin, run the engine turn tagged with the origin pair, and
return the session key used for history persistence with the outcome. -/
def process_system_message (chat : List ContextEntry → Except String ChatResponse)
    (execute : String → String → String) (sender_id chat_id content : String)
    (session : Session) (max_iterations memory_window : Nat) : String × ProcessResult :=
  let oc := (resolveOrigin chat_id).1
  let oid := (resolveOrigin chat_id).2
  let session_key := oc ++ ":" ++ oid
  let initial := build_messages (get_history session memory_window) content
  let r := run_agent_loop chat execute oc oid max_iterations initial
  match r.2 with
  | Except.error e =>
    (session_key, { events := r.1, reply := Except.error e, session := session, spawned := [] })
  | Except.ok p =>
    let final := p.1.getD "Background task completed."
    let out : OutboundMessage :=
      { channel := oc, chat_id := oid, content := final,
        metadata := [("event_type", JsonVal.str "message")] }
    (session_key,
     { events := r.1, reply := Except.ok out,
       session := { session with messages := session.messages ++
         [("user", "[System: " ++ sender_id ++ "] " ++ content), ("assistant", final)] },
       spawned := [] })

/-- Modelled from the spec: the engine's caller (the nanobot base loop
driving `_process_message`, not under `src/manus`) converts a
decision-collaborator failure into a user-visible failure response so the
turn still ends in a terminal message event (spec section 7, taxonomy
item 4). -/
def turn_output (channel chat_id : String) (reply : Except String OutboundMessage) :
    OutboundMessage :=
  match reply with
  | Except.ok out => out
  | Except.error e =>
    { channel := channel, chat_id := chat_id, content := e,
      metadata := [("event_type", JsonVal.str "message")] }

/-- The full event stream a subscriber observes for one processed turn: the
events published while it ran, then the turn's terminal message. -/
def turn_stream (pr : ProcessResult) (channel chat_id : String) : List OutboundMessage :=
  pr.events ++ [turn_output channel chat_id pr.reply]

/-! ## Lemmas about the constructed events -/

@[simp] theorem eventTypeVal_mkThinkingEvent (ch cid : String) (i : Nat) :
    eventTypeVal (mkThinkingEvent ch cid i) = JsonVal.str "thinking" := rfl

@[simp] theorem eventTypeVal_mkReasoningEvent (ch cid c : String) (i : Nat) :
    eventTypeVal (mkReasoningEvent ch cid c i) = JsonVal.str "thinking" := rfl

@[simp] theorem eventTypeVal_mkToolCallEvent (ch cid : String) (tc : ToolCall) (i : Nat) :
    eventTypeVal (mkToolCallEvent ch cid tc i) = JsonVal.str "tool_call" := rfl

@[simp] theorem eventTypeVal_mkToolResultEvent (ch cid : String) (tc : ToolCall) (r : String)
    (i : Nat) : eventTypeVal (mkToolResultEvent ch cid tc r i) = JsonVal.str "tool_result" := rfl

@[simp] theorem iterationOf_mkThinkingEvent (ch cid : String) (i : Nat) :
    iterationOf (mkThinkingEvent ch cid i) = some i := rfl

@[simp] theorem iterationOf_mkReasoningEvent (ch cid c : String) (i : Nat) :
    iterationOf (mkReasoningEvent ch cid c i) = some i := rfl

@[simp] theorem iterationOf_mkToolCallEvent (ch cid : String) (tc : ToolCall) (i : Nat) :
    iterationOf (mkToolCallEvent ch cid tc i) = some i := rfl

@[simp] theorem iterationOf_mkToolResultEvent (ch cid : String) (tc : ToolCall) (r : String)
    (i : Nat) : iterationOf (mkToolResultEvent ch cid tc r i) = some i := rfl

@[simp] theorem channel_mkThinkingEvent (ch cid : String) (i : Nat) :
    (mkThinkingEvent ch cid i).channel = ch ∧ (mkThinkingEvent ch cid i).chat_id = cid :=
  ⟨rfl, rfl⟩

@[simp] theorem channel_mkReasoningEvent (ch cid c : String) (i : Nat) :
    (mkReasoningEvent ch cid c i).channel = ch ∧ (mkReasoningEvent ch cid c i).chat_id = cid :=
  ⟨rfl, rfl⟩

@[simp] theorem channel_mkToolCallEvent (ch cid : String) (tc : ToolCall) (i : Nat) :
    (mkToolCallEvent ch cid tc i).channel = ch ∧ (mkToolCallEvent ch cid tc i).chat_id = cid :=
  ⟨rfl, rfl⟩

@[simp] theorem channel_mkToolResultEvent (ch cid : String) (tc : ToolCall) (r : String)
    (i : Nat) : (mkToolResultEvent ch cid tc r i).channel = ch ∧
      (mkToolResultEvent ch cid tc r i).chat_id = cid :=
  ⟨rfl, rfl⟩

/-- Closed form of the tool-call processing loop: the message context grows
by one tool-role entry per call, `tools_used` records the names in call
order, and each call contributes a `tool_call` event directly followed by
its `tool_result` event. -/
theorem runToolCalls_eq (execute : String → String → String) (ch cid : String) (iter : Nat)
    (tcs : List ToolCall) (messages : List ContextEntry) :
    runToolCalls execute ch cid iter tcs messages =
      (messages ++ tcs.map (fun tc =>
         ({ role := "tool", content := execute tc.name tc.arguments,
            tool_call_id := some tc.id, name := some tc.name } : ContextEntry)),
       tcs.map ToolCall.name,
       tcs.flatMap (fun tc =>
         [mkToolCallEvent ch cid tc iter,
          mkToolResultEvent ch cid tc (execute tc.name tc.arguments) iter])) := by
  induction tcs generalizing messages with
  | nil => simp [runToolCalls]
  | cons tc rest ih =>
    simp [runToolCalls, add_tool_result, ih]

/-! ## Concrete decision and tool collaborators used in counterexamples and
witnesses -/

/-- A decision collaborator that always returns zero tool calls and no
auxiliary reasoning content. -/
def chatZeroTool : List ContextEntry → Except String ChatResponse :=
  fun _ => Except.ok { content := "done", reasoning_content := none, tool_calls := [] }

/-- A decision collaborator that always returns zero tool calls but carries
auxiliary reasoning content. -/
def chatZeroToolReasoning : List ContextEntry → Except String ChatResponse :=
  fun _ => Except.ok { content := "done", reasoning_content := some "why", tool_calls := [] }

/-- A decision collaborator that always returns exactly one tool call and no
auxiliary reasoning content. -/
def chatOneTool : List ContextEntry → Except String ChatResponse :=
  fun _ =>
    let r : ChatResponse :=
      { content := "", reasoning_content := none,
        tool_calls := [{ id := "i1", name := "search", arguments := "{}" }] }
    Except.ok r

/-- A decision collaborator that always returns exactly one tool call and
also carries auxiliary reasoning content. -/
def chatOneToolReasoning : List ContextEntry → Except String ChatResponse :=
  fun _ =>
    let r : ChatResponse :=
      { content := "", reasoning_content := some "why",
        tool_calls := [{ id := "i1", name := "search", arguments := "{}" }] }
    Except.ok r

/-- A tool executor returning a fixed result. -/
def execConst : String → String → String := fun _ _ => "res"

/-! ## Claim C3: a decision with zero tool calls ends the turn -/

/-- C3 counterexample: with a decision collaborator that always returns zero
tool calls but carries reasoning content, the run does terminate in one
iteration with the decision's content, yet it emits two `thinking` events
(loop.py lines 50-60 emit a second `thinking` event for reasoning content),
not exactly one as the claim states. -/
theorem c3_counterexample :
    (run_agent_loop chatZeroToolReasoning execConst "web" "chat" 3 []).2 =
      Except.ok (some "done", []) ∧
    countEventType (run_agent_loop chatZeroToolReasoning execConst "web" "chat" 3 []).1
      "thinking" = 2 :=
  ⟨rfl, rfl⟩

/-- C3 (amended): run with a decision collaborator that always returns zero
tool calls and no reasoning content, and a positive iteration budget, the
engine terminates in one iteration with `final_content` equal to the
decision's content, emitting exactly one `thinking` event and zero
`tool_call`/`tool_result` events. -/
theorem run_agent_loop_zero_tool_calls (chat : List ContextEntry → Except String ChatResponse)
    (execute : String → String → String) (ch cid : String) (mi : Nat)
    (init : List ContextEntry)
    (hchat : ∀ m, ∃ r, chat m = Except.ok r ∧ r.reasoning_content = none ∧ r.tool_calls = [])
    (hmi : 1 ≤ mi) :
    ∀ r0, chat init = Except.ok r0 →
      run_agent_loop chat execute ch cid mi init =
        ([mkThinkingEvent ch cid 1], Except.ok (some r0.content, [])) := by
  obtain ⟨f, rfl⟩ : ∃ f, mi = f + 1 := ⟨mi - 1, by omega⟩
  intro r0 h0
  obtain ⟨r, hr, hrc, htc⟩ := hchat init
  rw [h0] at hr
  obtain rfl : r0 = r := by injection hr
  simp [run_agent_loop, runAgentLoopAux, h0, hrc, ChatResponse.has_tool_calls, htc]

/-- C3 witness: the amended theorem applied to a concrete collaborator. -/
theorem run_agent_loop_zero_tool_calls_witness :
    run_agent_loop chatZeroTool execConst "web" "chat" 3 [] =
      ([mkThinkingEvent "web" "chat" 1], Except.ok (some "done", [])) :=
  run_agent_loop_zero_tool_calls chatZeroTool execConst "web" "chat" 3 []
    (fun _ => ⟨_, rfl, rfl, rfl⟩) (by omega) _ rfl

/-! ## Claim C2: a decision collaborator that always calls one tool exhausts
the budget -/

theorem flatMap_range_succ_shift {α : Type} (h : Nat → List α) (n : Nat) :
    (List.range (n + 1)).flatMap h = h 0 ++ (List.range n).flatMap (fun k => h (k + 1)) := by
  rw [List.range_succ_eq_map]
  simp [List.flatMap_map, Function.comp, Nat.succ_eq_add_one]

theorem map_range_succ_shift {α : Type} (h : Nat → α) (n : Nat) :
    (List.range (n + 1)).map h = h 0 :: (List.range n).map (fun k => h (k + 1)) := by
  rw [List.range_succ_eq_map]
  simp [Function.comp, Nat.succ_eq_add_one]

/-- The engine resumed at any point with a decision collaborator that always
returns exactly one tool call and no reasoning content: every remaining
iteration contributes its `thinking` event directly followed by the paired
`tool_call`/`tool_result` events of its single call, all tagged with that
iteration's index, and the run ends with no final content. -/
theorem runAgentLoopAux_always_one_tool
    (chat : List ContextEntry → Except String ChatResponse)
    (execute : String → String → String) (ch cid : String)
    (hchat : ∀ m, ∃ r tc, chat m = Except.ok r ∧ r.reasoning_content = none ∧
      r.tool_calls = [tc]) :
    ∀ fuel iteration messages, ∃ f : Nat → ToolCall,
      runAgentLoopAux chat execute ch cid fuel iteration messages =
        ((List.range fuel).flatMap (fun k =>
           [mkThinkingEvent ch cid (iteration + k + 1),
            mkToolCallEvent ch cid (f k) (iteration + k + 1),
            mkToolResultEvent ch cid (f k)
              (execute (f k).name (f k).arguments) (iteration + k + 1)]),
         Except.ok (none, (List.range fuel).map (fun k => (f k).name))) := by
  intro fuel
  induction fuel with
  | zero =>
    intro it msgs
    exact ⟨fun _ => { id := "", name := "", arguments := "" }, by simp [runAgentLoopAux]⟩
  | succ fl ih =>
    intro it msgs
    obtain ⟨r, tc, hr, hrc, htc⟩ := hchat msgs
    obtain ⟨g, hg⟩ := ih (it + 1)
      (add_assistant_message msgs r.content [tc] none ++
        [({ role := "tool", content := execute tc.name tc.arguments,
            tool_call_id := some tc.id, name := some tc.name } : ContextEntry),
         ({ role := "user",
            content := "Reflect on the results and decide next steps." } : ContextEntry)])
    refine ⟨fun k => match k with | 0 => tc | Nat.succ k => g k, ?_⟩
    rw [flatMap_range_succ_shift, map_range_succ_shift]
    simp only [runAgentLoopAux, hr, hrc, htc, ChatResponse.has_tool_calls, runToolCalls_eq,
      List.map_cons, List.map_nil, List.flatMap_cons, List.flatMap_nil, List.isEmpty_cons,
      Bool.not_false, if_true, List.append_assoc, List.singleton_append, List.cons_append,
      List.append_nil, List.nil_append]
    rw [hg]
    have harith : ∀ k : Nat, it + (k + 1) + 1 = it + 1 + k + 1 := fun k => by omega
    simp only [harith, Nat.add_zero]

/-- C2 counterexample: with a decision collaborator that always returns
exactly one tool call but also reasoning content, and `max_iterations = 1`,
the run does exhaust the budget with no final content, yet it emits two
`thinking` events (loop.py lines 50-60 emit a second `thinking` event for
reasoning content), not `max_iterations = 1` of them as the claim states. -/
theorem c2_counterexample :
    (run_agent_loop chatOneToolReasoning execConst "web" "chat" 1 []).2 =
      Except.ok (none, ["search"]) ∧
    countEventType (run_agent_loop chatOneToolReasoning execConst "web" "chat" 1 []).1
      "thinking" = 2 :=
  ⟨rfl, rfl⟩

/-- C2 (amended): run with a decision collaborator that always returns
exactly one tool call and no reasoning content, the engine terminates
exactly at `max_iterations` with no final content (the `Exhausted` state),
and the event stream consists, for each iteration `k+1` from 1 to
`max_iterations` in order, of that iteration's `thinking` event directly
followed by its paired `tool_call`/`tool_result` events, each tagged with
the iteration index, while `tools_used` records one tool per iteration in
call order. -/
theorem run_agent_loop_always_one_tool
    (chat : List ContextEntry → Except String ChatResponse)
    (execute : String → String → String) (ch cid : String) (mi : Nat)
    (init : List ContextEntry)
    (hchat : ∀ m, ∃ r tc, chat m = Except.ok r ∧ r.reasoning_content = none ∧
      r.tool_calls = [tc]) :
    ∃ f : Nat → ToolCall,
      run_agent_loop chat execute ch cid mi init =
        ((List.range mi).flatMap (fun k =>
           [mkThinkingEvent ch cid (k + 1), mkToolCallEvent ch cid (f k) (k + 1),
            mkToolResultEvent ch cid (f k)
              (execute (f k).name (f k).arguments) (k + 1)]),
         Except.ok (none, (List.range mi).map (fun k => (f k).name))) := by
  obtain ⟨f, hf⟩ := runAgentLoopAux_always_one_tool chat execute ch cid hchat mi 0 init
  exact ⟨f, by simpa using hf⟩

/-- C2 witness: the amended theorem applied to a concrete collaborator with
`max_iterations = 2`. -/
theorem run_agent_loop_always_one_tool_witness :
    ∃ f : Nat → ToolCall,
      run_agent_loop chatOneTool execConst "web" "chat" 2 [] =
        ((List.range 2).flatMap (fun k =>
           [mkThinkingEvent "web" "chat" (k + 1), mkToolCallEvent "web" "chat" (f k) (k + 1),
            mkToolResultEvent "web" "chat" (f k)
              (execConst (f k).name (f k).arguments) (k + 1)]),
         Except.ok (none, (List.range 2).map (fun k => (f k).name))) :=
  run_agent_loop_always_one_tool chatOneTool execConst "web" "chat" 2 []
    (fun _ => ⟨_, _, rfl, rfl, rfl⟩)

/-! ## Claim C4: the shape of an iteration whose decision contains tool calls -/

/-- C4: in an iteration whose decision contains tool calls, the engine first
appends one assistant-role entry carrying the raw tool-call requests to the
message context, then processes the calls in the order given — recording
each name in `tools_used`, emitting its `tool_call` event, invoking the
executor, emitting its `tool_result` event with the result, and appending a
tool-role entry with the result — and after all calls appends the synthetic
user-role reflection instruction and loops on the remaining budget. -/
theorem runAgentLoopAux_tool_call_iteration
    (chat : List ContextEntry → Except String ChatResponse)
    (execute : String → String → String) (ch cid : String)
    (fuel iteration : Nat) (messages : List ContextEntry) (r : ChatResponse)
    (hr : chat messages = Except.ok r) (htc : r.has_tool_calls = true) :
    runAgentLoopAux chat execute ch cid (fuel + 1) iteration messages =
      (let iter := iteration + 1
       let reasonEvs := match r.reasoning_content with
         | some rc => if rc = "" then [] else [mkReasoningEvent ch cid rc iter]
         | none => []
       let nextMessages :=
         add_assistant_message messages r.content r.tool_calls r.reasoning_content ++
           r.tool_calls.map (fun tc =>
             ({ role := "tool", content := execute tc.name tc.arguments,
                tool_call_id := some tc.id, name := some tc.name } : ContextEntry)) ++
           [{ role := "user", content := "Reflect on the results and decide next steps." }]
       let rest := runAgentLoopAux chat execute ch cid fuel iter nextMessages
       (mkThinkingEvent ch cid iter :: reasonEvs ++
          r.tool_calls.flatMap (fun tc =>
            [mkToolCallEvent ch cid tc iter,
             mkToolResultEvent ch cid tc (execute tc.name tc.arguments) iter]) ++ rest.1,
        match rest.2 with
        | Except.error e => Except.error e
        | Except.ok p => Except.ok (p.1, r.tool_calls.map ToolCall.name ++ p.2))) := by
  simp only [runAgentLoopAux, hr, runToolCalls_eq, htc, if_true, List.append_assoc]

/-- C4 witness: the iteration contract applied to a concrete decision with
one tool call and no remaining budget afterwards, evaluated. -/
theorem runAgentLoopAux_tool_call_iteration_witness :
    runAgentLoopAux chatOneTool execConst "web" "chat" 1 0 [] =
      ([mkThinkingEvent "web" "chat" 1,
        mkToolCallEvent "web" "chat" { id := "i1", name := "search", arguments := "{}" } 1,
        mkToolResultEvent "web" "chat" { id := "i1", name := "search", arguments := "{}" }
          "res" 1],
       Except.ok (none, ["search"])) :=
  (runAgentLoopAux_tool_call_iteration chatOneTool execConst "web" "chat" 0 0 []
    { content := "", reasoning_content := none,
      tool_calls := [{ id := "i1", name := "search", arguments := "{}" }] } rfl rfl).trans rfl

/-! ## Claim C10: iteration indices carried by emitted events are 1-based
and bounded by the budget -/

/-- Every event emitted by the loop resumed at `iteration` with `fuel`
remaining passes carries an iteration tag, if any, strictly above
`iteration` and at most `iteration + fuel`. -/
theorem runAgentLoopAux_iteration_bounds
    (chat : List ContextEntry → Except String ChatResponse)
    (execute : String → String → String) (ch cid : String) :
    ∀ fuel iteration messages ev,
      ev ∈ (runAgentLoopAux chat execute ch cid fuel iteration messages).1 →
      ∀ i, iterationOf ev = some i → iteration + 1 ≤ i ∧ i ≤ iteration + fuel := by
  intro fuel
  induction fuel with
  | zero =>
    intro it msgs ev hev
    simp [runAgentLoopAux] at hev
  | succ fl ih =>
    intro it msgs ev hev i hi
    cases hr : chat msgs with
    | error e =>
      rw [runAgentLoopAux, hr] at hev
      simp at hev
      subst hev
      simp at hi
      omega
    | ok r =>
      rw [runAgentLoopAux, hr] at hev
      by_cases htc : r.has_tool_calls
      · simp only [htc, if_true, runToolCalls_eq, List.mem_cons, List.mem_append,
          List.mem_flatMap] at hev
        rcases hev with ((rfl | hev) | ⟨tc, htcm, hev⟩) | hev
        · simp at hi; omega
        · rcases hrc : r.reasoning_content with _ | rc <;> rw [hrc] at hev
          · simp at hev
          · by_cases hrc0 : rc = "" <;> simp [hrc0] at hev
            subst hev; simp at hi; omega
        · rcases hev with rfl | rfl | hev
          · simp at hi; omega
          · simp at hi; omega
          · simp at hev
        · have := ih (it + 1) _ ev hev i hi
          omega
      · dsimp only [] at hev
        rw [if_neg htc] at hev
        simp only [List.mem_cons] at hev
        rcases hev with rfl | hev
        · simp at hi; omega
        · rcases hrc : r.reasoning_content with _ | rc <;> rw [hrc] at hev
          · simp at hev
          · by_cases hrc0 : rc = "" <;> simp [hrc0] at hev
            subst hev; simp at hi; omega

/-- C10: the iteration index carried by emitted events is 1-based — with a
positive budget the first emitted event is the `thinking` event of iteration
1, and every emitted event's iteration tag lies between 1 and
`max_iterations`; no event ever carries iteration 0 or exceeds the budget. -/
theorem run_agent_loop_iteration_tags
    (chat : List ContextEntry → Except String ChatResponse)
    (execute : String → String → String) (ch cid : String) (mi : Nat)
    (init : List ContextEntry) (hmi : 1 ≤ mi) :
    (run_agent_loop chat execute ch cid mi init).1.head? =
      some (mkThinkingEvent ch cid 1) ∧
    ∀ ev ∈ (run_agent_loop chat execute ch cid mi init).1,
      ∀ i, iterationOf ev = some i → 1 ≤ i ∧ i ≤ mi := by
  constructor
  · obtain ⟨f, rfl⟩ : ∃ f, mi = f + 1 := ⟨mi - 1, by omega⟩
    cases hr : chat init with
    | error e => simp [run_agent_loop, runAgentLoopAux, hr]
    | ok r =>
      rw [run_agent_loop, runAgentLoopAux, hr]
      by_cases htc : r.has_tool_calls <;> simp [htc]
  · intro ev hev i hi
    have := runAgentLoopAux_iteration_bounds chat execute ch cid mi 0 init ev hev i hi
    omega

/-- C10 witness: the tag theorem applied to a concrete run. -/
theorem run_agent_loop_iteration_tags_witness :
    (run_agent_loop chatOneTool execConst "web" "chat" 2 []).1.head? =
      some (mkThinkingEvent "web" "chat" 1) ∧
    ∀ ev ∈ (run_agent_loop chatOneTool execConst "web" "chat" 2 []).1,
      ∀ i, iterationOf ev = some i → 1 ≤ i ∧ i ≤ 2 :=
  run_agent_loop_iteration_tags chatOneTool execConst "web" "chat" 2 [] (by omega)

/-! ## Claim C6: the new-conversation command short-circuits the engine -/

/-- C6: an inbound message whose trimmed, lower-cased content is `"/new"`
never reaches the decision collaborator — the outcome is the same for every
`chat` and `execute`, returns the fixed acknowledgement text, leaves the
session's messages empty immediately after, and only hands the old history
to a detached archival task whose outcome the turn never observes. -/
theorem process_message_new_command
    (chat : List ContextEntry → Except String ChatResponse)
    (execute : String → String → String) (ch cid content : String)
    (inMeta : List (String × JsonVal)) (session : Session) (mi mw : Nat)
    (h : strip_lower content = "/new") :
    process_message chat execute ch cid content inMeta session mi mw =
      ⟨[], Except.ok ⟨ch, cid, "New session started. Memory consolidation in progress.", []⟩,
       ⟨session.key, []⟩, [session.messages]⟩ := by
  simp [process_message, h]

/-- C6 witness: a concrete `" /NEW "` message against a non-trivial session,
with a live decision collaborator that is provably never consulted. -/
theorem process_message_new_command_witness :
    process_message chatOneTool execConst "web" "default" " /NEW " []
        ⟨"web:default", [("user", "hi")]⟩ 5 10 =
      ⟨[], Except.ok ⟨"web", "default",
        "New session started. Memory consolidation in progress.", []⟩,
       ⟨"web:default", []⟩, [[("user", "hi")]]⟩ :=
  process_message_new_command chatOneTool execConst "web" "default" " /NEW " []
    ⟨"web:default", [("user", "hi")]⟩ 5 10 (by decide)

/-! ## Claim C5: every processed turn ends in exactly one terminal message
event -/

theorem alistGet_alistSet_self {κ α : Type} [DecidableEq κ] (l : List (κ × α)) (k : κ)
    (v : α) : alistGet (alistSet l k v) k = some v := by
  induction l with
  | nil => simp [alistSet, alistGet]
  | cons p rest ih =>
    by_cases h : p.1 = k
    · simp [alistSet, h, alistGet]
    · simp [alistSet, h, alistGet, ih]

/-- Every event the loop publishes is a `thinking`, `tool_call` or
`tool_result` event tagged with the loop's channel and chat id. -/
theorem runAgentLoopAux_events_shape
    (chat : List ContextEntry → Except String ChatResponse)
    (execute : String → String → String) (ch cid : String) :
    ∀ fuel iteration messages ev,
      ev ∈ (runAgentLoopAux chat execute ch cid fuel iteration messages).1 →
      (eventTypeVal ev = JsonVal.str "thinking" ∨ eventTypeVal ev = JsonVal.str "tool_call" ∨
        eventTypeVal ev = JsonVal.str "tool_result") ∧ ev.channel = ch ∧ ev.chat_id = cid := by
  intro fuel
  induction fuel with
  | zero =>
    intro it msgs ev hev
    simp [runAgentLoopAux] at hev
  | succ fl ih =>
    intro it msgs ev hev
    cases hr : chat msgs with
    | error e =>
      rw [runAgentLoopAux, hr] at hev
      simp at hev
      subst hev
      simp
    | ok r =>
      rw [runAgentLoopAux, hr] at hev
      by_cases htc : r.has_tool_calls
      · simp only [htc, if_true, runToolCalls_eq, List.mem_cons, List.mem_append,
          List.mem_flatMap] at hev
        rcases hev with ((rfl | hev) | ⟨tc, htcm, hev⟩) | hev
        · simp
        · rcases hrc : r.reasoning_content with _ | rc <;> rw [hrc] at hev
          · simp at hev
          · by_cases hrc0 : rc = "" <;> simp [hrc0] at hev
            subst hev; simp
        · rcases hev with rfl | rfl | hev
          · simp
          · simp
          · simp at hev
        · exact ih (it + 1) _ ev hev
      · dsimp only [] at hev
        rw [if_neg htc] at hev
        simp only [List.mem_cons] at hev
        rcases hev with rfl | hev
        · simp
        · rcases hrc : r.reasoning_content with _ | rc <;> rw [hrc] at hev
          · simp at hev
          · by_cases hrc0 : rc = "" <;> simp [hrc0] at hev
            subst hev; simp

/-- The loop never publishes a `message`-typed event: the terminal message
is produced by the caller, not the iteration engine. -/
theorem run_agent_loop_no_message
    (chat : List ContextEntry → Except String ChatResponse)
    (execute : String → String → String) (ch cid : String) (mi : Nat)
    (init : List ContextEntry) :
    countEventType (run_agent_loop chat execute ch cid mi init).1 "message" = 0 := by
  unfold countEventType
  rw [List.filter_eq_nil_iff.mpr]
  · rfl
  · intro ev hev
    rcases (runAgentLoopAux_events_shape chat execute ch cid mi 0 init ev hev).1 with
      h | h | h <;> simp [jsonIsStr, h]

@[simp] theorem countEventType_nil (t : String) : countEventType [] t = 0 := rfl

@[simp] theorem countEventType_append (a b : List OutboundMessage) (t : String) :
    countEventType (a ++ b) t = countEventType a t + countEventType b t := by
  simp [countEventType, List.filter_append]

theorem countEventType_singleton (e : OutboundMessage) (t : String) :
    countEventType [e] t = if jsonIsStr (eventTypeVal e) t then 1 else 0 := by
  simp only [countEventType, List.filter_singleton]
  by_cases h : jsonIsStr (eventTypeVal e) t <;> simp [h]

/-- C5: every processed turn — command, engine turn, or system-routed turn —
yields a stream holding exactly one `message`-typed terminal event, the
engine itself never publishing one; and an engine turn that exhausts its
budget without final content replies with the fixed fallback text instead of
an error. -/
theorem processed_turn_one_message
    (chat : List ContextEntry → Except String ChatResponse)
    (execute : String → String → String) (ch cid content : String)
    (inMeta : List (String × JsonVal)) (session : Session)
    (sender sys_chat_id sys_content : String) (sys_session : Session) (mi mw : Nat) :
    countEventType
      (turn_stream (process_message chat execute ch cid content inMeta session mi mw) ch cid)
      "message" = 1 ∧
    (∀ evs tools,
      run_agent_loop chat execute ch cid mi
          (build_messages (get_history session mw) content) = (evs, Except.ok (none, tools)) →
      strip_lower content ≠ "/new" → strip_lower content ≠ "/help" →
      (turn_output ch cid
          (process_message chat execute ch cid content inMeta session mi mw).reply).content =
        "I've completed processing but have no response to give.") ∧
    countEventType
      (turn_stream
        (process_system_message chat execute sender sys_chat_id sys_content sys_session mi mw).2
        (resolveOrigin sys_chat_id).1 (resolveOrigin sys_chat_id).2) "message" = 1 := by
  refine ⟨?_, ?_, ?_⟩
  · by_cases h1 : strip_lower content = "/new"
    · simp [process_message, h1, turn_stream, turn_output, countEventType, eventTypeVal,
        alistGet, jsonIsStr]
    · by_cases h2 : strip_lower content = "/help"
      · simp [process_message, h1, h2, turn_stream, turn_output, countEventType, eventTypeVal,
          alistGet, jsonIsStr]
      · rcases hr2 : (run_agent_loop chat execute ch cid mi
            (build_messages (get_history session mw) content)).2 with e | p
        · simp [process_message, h1, h2, hr2, turn_stream, turn_output,
            countEventType_singleton, run_agent_loop_no_message, eventTypeVal, alistGet,
            jsonIsStr]
        · simp [process_message, h1, h2, hr2, turn_stream, turn_output,
            countEventType_singleton, run_agent_loop_no_message, alistGet_alistSet_self,
            eventTypeVal, jsonIsStr]
  · intro evs tools hrun h1 h2
    have hr2 : (run_agent_loop chat execute ch cid mi
        (build_messages (get_history session mw) content)).2 = Except.ok (none, tools) := by
      rw [hrun]
    simp [process_message, h1, h2, hr2, turn_output]
  · rcases hr2 : (run_agent_loop chat execute (resolveOrigin sys_chat_id).1
        (resolveOrigin sys_chat_id).2 mi
        (build_messages (get_history sys_session mw) sys_content)).2 with e | p
    · simp [process_system_message, hr2, turn_stream, turn_output, countEventType_singleton,
        run_agent_loop_no_message, eventTypeVal, alistGet, jsonIsStr]
    · simp [process_system_message, hr2, turn_stream, turn_output, countEventType_singleton,
        run_agent_loop_no_message, eventTypeVal, alistGet, jsonIsStr]

/-- C5 witness: a concrete engine turn that exhausts a budget of one
iteration — its stream has exactly one terminal message event, whose content
is the fixed fallback text. -/
theorem processed_turn_one_message_witness :
    countEventType (turn_stream (process_message chatOneTool execConst "web" "d" "hello" []
        ⟨"k", []⟩ 1 10) "web" "d") "message" = 1 ∧
    (turn_output "web" "d" (process_message chatOneTool execConst "web" "d" "hello" []
        ⟨"k", []⟩ 1 10).reply).content =
      "I've completed processing but have no response to give." :=
  ⟨(processed_turn_one_message chatOneTool execConst "web" "d" "hello" [] ⟨"k", []⟩
      "cron" "slack:C1" "go" ⟨"s", []⟩ 1 10).1,
   (processed_turn_one_message chatOneTool execConst "web" "d" "hello" [] ⟨"k", []⟩
      "cron" "slack:C1" "go" ⟨"s", []⟩ 1 10).2.1
     [mkThinkingEvent "web" "d" 1,
      mkToolCallEvent "web" "d" ⟨"i1", "search", "{}"⟩ 1,
      mkToolResultEvent "web" "d" ⟨"i1", "search", "{}"⟩ "res" 1] ["search"] rfl
     (by decide) (by decide)⟩

/-! ## Claim C7: composite-origin routing of system messages -/

theorem splitFirstColon_no_colon : ∀ l : List Char, (∀ c ∈ l, c ≠ ':') →
    splitFirstColon l = none := by
  intro l h
  induction l with
  | nil => rfl
  | cons c cs ih =>
    have hc : c ≠ ':' := h c (by simp)
    simp [splitFirstColon, hc, ih (fun x hx => h x (by simp [hx]))]

theorem splitFirstColon_first (l r : List Char) (h : ∀ c ∈ l, c ≠ ':') :
    splitFirstColon (l ++ ':' :: r) = some (l, r) := by
  induction l with
  | nil => simp [splitFirstColon]
  | cons c cs ih =>
    have hc : c ≠ ':' := h c (by simp)
    simp [splitFirstColon, hc, ih (fun x hx => h x (by simp [hx]))]

/-- A chat id with no colon defaults the origin channel to the generic
direct-interaction channel `"cli"`. -/
theorem resolveOrigin_no_colon (s : String) (h : ∀ c ∈ s.data, c ≠ ':') :
    resolveOrigin s = ("cli", s) := by
  simp [resolveOrigin, splitFirstColon_no_colon s.data h]

/-- A composite chat id splits on its first colon into origin channel and
origin chat id. -/
theorem resolveOrigin_split (pre post : String) (h : ∀ c ∈ pre.data, c ≠ ':') :
    resolveOrigin (pre ++ ":" ++ post) = (pre, post) := by
  obtain ⟨lp⟩ := pre
  obtain ⟨lq⟩ := post
  have hd : (String.mk lp ++ ":" ++ String.mk lq).data = lp ++ ':' :: lq := by
    simp [String.data_append]
  simp [resolveOrigin, hd, splitFirstColon_first lp lq h]

/-- C7: a system-originated unit of work is routed by splitting its chat id
on the first colon — the session key is `origin_channel:origin_chat_id`, all
emitted events and the terminal reply are tagged with the origin pair,
`"slack:C123"` resolves to `("slack", "C123")`, and a colon-free chat id
such as `"noColonHere"` defaults the origin channel to `"cli"`. -/
theorem system_message_routing
    (chat : List ContextEntry → Except String ChatResponse)
    (execute : String → String → String) (sender chat_id content : String)
    (session : Session) (mi mw : Nat) :
    (process_system_message chat execute sender chat_id content session mi mw).1 =
      (resolveOrigin chat_id).1 ++ ":" ++ (resolveOrigin chat_id).2 ∧
    (∀ ev ∈ (process_system_message chat execute sender chat_id content session mi mw).2.events,
      ev.channel = (resolveOrigin chat_id).1 ∧ ev.chat_id = (resolveOrigin chat_id).2) ∧
    (∀ out, (process_system_message chat execute sender chat_id content session mi mw).2.reply =
        Except.ok out →
      out.channel = (resolveOrigin chat_id).1 ∧ out.chat_id = (resolveOrigin chat_id).2) ∧
    resolveOrigin "slack:C123" = ("slack", "C123") ∧
    resolveOrigin "noColonHere" = ("cli", "noColonHere") ∧
    (∀ s : String, (∀ c ∈ s.data, c ≠ ':') → resolveOrigin s = ("cli", s)) ∧
    (∀ pre post : String, (∀ c ∈ pre.data, c ≠ ':') →
      resolveOrigin (pre ++ ":" ++ post) = (pre, post)) := by
  refine ⟨?_, ?_, ?_, rfl, rfl, resolveOrigin_no_colon, resolveOrigin_split⟩
  · rcases hr2 : (run_agent_loop chat execute (resolveOrigin chat_id).1
        (resolveOrigin chat_id).2 mi (build_messages (get_history session mw) content)).2
      with e | p <;>
      simp [process_system_message, hr2]
  · intro ev hev
    have hev' : ev ∈ (run_agent_loop chat execute (resolveOrigin chat_id).1
        (resolveOrigin chat_id).2 mi (build_messages (get_history session mw) content)).1 := by
      rcases hr2 : (run_agent_loop chat execute (resolveOrigin chat_id).1
          (resolveOrigin chat_id).2 mi (build_messages (get_history session mw) content)).2
        with e | p <;>
        simpa [process_system_message, hr2] using hev
    unfold run_agent_loop at hev'
    exact (runAgentLoopAux_events_shape chat execute (resolveOrigin chat_id).1
      (resolveOrigin chat_id).2 mi 0 _ ev hev').2
  · intro out hout
    rcases hr2 : (run_agent_loop chat execute (resolveOrigin chat_id).1
        (resolveOrigin chat_id).2 mi (build_messages (get_history session mw) content)).2
      with e | p <;>
      simp [process_system_message, hr2] at hout
    rw [← hout]
    exact ⟨rfl, rfl⟩

/-- C7 witness: the routing theorem applied to the concrete chat ids of the
claim. -/
theorem system_message_routing_witness :
    (process_system_message chatZeroTool execConst "cron" "slack:C123" "go" ⟨"k", []⟩ 1
      10).1 = "slack:C123" ∧
    resolveOrigin ("slack" ++ ":" ++ "C123") = ("slack", "C123") ∧
    resolveOrigin "noColonHere" = ("cli", "noColonHere") :=
  ⟨((system_message_routing chatZeroTool execConst "cron" "slack:C123" "go" ⟨"k", []⟩ 1
      10).1).trans rfl,
   (system_message_routing chatZeroTool execConst "cron" "slack:C123" "go" ⟨"k", []⟩ 1
      10).2.2.2.2.2.2 "slack" "C123" (by decide),
   (system_message_routing chatZeroTool execConst "cron" "slack:C123" "go" ⟨"k", []⟩ 1
      10).2.2.2.2.2.1 "noColonHere" (by decide)⟩

/-! ## Claim C9: stream subscriptions open with a connected event and
forward full records -/

/-- The records forwarded by the consume loop are exactly one serialised
record per consumed envelope, in order. -/
theorem mem_consume_loop (now : String) (l : List OutboundMessage)
    (rec : List (String × JsonVal)) :
    rec ∈ consume_loop now l ↔ ∃ msg ∈ l, rec = event_record now msg := by
  induction l with
  | nil => simp [consume_loop]
  | cons m rest ih =>
    simp only [consume_loop, List.mem_cons, ih]
    constructor
    · rintro (rfl | ⟨msg, hm, rfl⟩)
      · exact ⟨m, Or.inl rfl, rfl⟩
      · exact ⟨msg, Or.inr hm, rfl⟩
    · rintro ⟨msg, (rfl | hm), rfl⟩
      · exact Or.inl rfl
      · exact Or.inr ⟨msg, hm, rfl⟩

/-- C9: the first item yielded by a stream subscription is always the
`connected` record naming the conversation id, emitted before any forwarded
envelope — every later record corresponds to a consumed envelope, in order —
and every forwarded record carries the `event_type`, `content`, `metadata`,
`timestamp` and conversation-id fields of its envelope. -/
theorem open_stream_record_format (cid now : String) (consumed : List OutboundMessage) :
    (event_generator_output cid now consumed).head? = some (connected_record cid) ∧
    alistGet (connected_record cid) "chat_id" = some (JsonVal.str cid) ∧
    alistGet (connected_record cid) "event_type" = some (JsonVal.str "connected") ∧
    (event_generator_output cid now consumed).tail = consume_loop now consumed ∧
    (∀ rec ∈ (event_generator_output cid now consumed).tail,
      ∃ msg ∈ consumed, rec = event_record now msg) ∧
    (∀ msg : OutboundMessage,
      (alistGet (event_record now msg) "event_type").isSome = true ∧
      alistGet (event_record now msg) "content" = some (JsonVal.str msg.content) ∧
      alistGet (event_record now msg) "metadata" = some (JsonVal.obj msg.metadata) ∧
      (alistGet (event_record now msg) "timestamp").isSome = true ∧
      alistGet (event_record now msg) "chat_id" = some (JsonVal.str msg.chat_id)) := by
  refine ⟨rfl, rfl, rfl, rfl, ?_, ?_⟩
  · intro rec hrec
    exact (mem_consume_loop now consumed rec).mp hrec
  · intro msg
    exact ⟨rfl, rfl, rfl, rfl, rfl⟩

/-- A concrete envelope used by witnesses. -/
def demoMsg1 : OutboundMessage :=
  ⟨"web", "a", "one", [("event_type", JsonVal.str "thinking"), ("iteration", JsonVal.num 3)]⟩

/-- A second concrete envelope used by witnesses. -/
def demoMsg2 : OutboundMessage := ⟨"web", "a", "two", []⟩

/-- A third concrete envelope, for a different conversation. -/
def demoMsg3 : OutboundMessage := ⟨"web", "b", "three", []⟩

/-- C9 witness: the record-format theorem applied to a concrete stream, with
the forwarded-record correspondence discharged at a concrete record. -/
theorem open_stream_record_format_witness :
    (event_generator_output "a" "t0" [demoMsg1]).head? = some (connected_record "a") ∧
    (∃ msg ∈ [demoMsg1], event_record "t0" demoMsg1 = event_record "t0" msg) ∧
    alistGet (event_record "t0" demoMsg1) "content" = some (JsonVal.str demoMsg1.content) :=
  ⟨(open_stream_record_format "a" "t0" [demoMsg1]).1,
   (open_stream_record_format "a" "t0" [demoMsg1]).2.2.2.2.1 (event_record "t0" demoMsg1)
     (by simp [event_generator_output, consume_loop]),
   ((open_stream_record_format "a" "t0" [demoMsg1]).2.2.2.2.2 demoMsg1).2.1⟩

/-! ## Claim C8: cleanup on every exit path and no leaked registry entries -/

theorem alistGet_eq_none_of_not_mem_keys {κ α : Type} [DecidableEq κ]
    (l : List (κ × α)) (k : κ) (h : k ∉ l.map Prod.fst) : alistGet l k = none := by
  induction l with
  | nil => rfl
  | cons p rest ih =>
    simp only [List.map_cons, List.mem_cons] at h
    push_neg at h
    have hne : ¬ p.1 = k := fun hc => h.1 hc.symm
    simp [alistGet, hne, ih h.2]

theorem alistGet_alistRemove_self {κ α : Type} [DecidableEq κ] (l : List (κ × α)) (k : κ)
    (h : (l.map Prod.fst).Nodup) : alistGet (alistRemove l k) k = none := by
  induction l with
  | nil => rfl
  | cons p rest ih =>
    simp only [List.map_cons, List.nodup_cons] at h
    by_cases hk : p.1 = k
    · rw [alistRemove, if_pos hk]
      exact alistGet_eq_none_of_not_mem_keys rest k (hk ▸ h.1)
    · rw [alistRemove, if_neg hk, alistGet, if_neg hk]
      exact ih h.2

theorem mem_alistRemove {κ α : Type} [DecidableEq κ] (l : List (κ × α)) (k : κ)
    (p : κ × α) (h : p ∈ alistRemove l k) : p ∈ l := by
  induction l with
  | nil => simp [alistRemove] at h
  | cons hd rest ih =>
    by_cases hk : hd.1 = k
    · rw [alistRemove, if_pos hk] at h
      exact List.mem_cons_of_mem hd h
    · rw [alistRemove, if_neg hk] at h
      rcases List.mem_cons.mp h with rfl | h
      · exact List.mem_cons_self p rest
      · exact List.mem_cons_of_mem hd (ih h)

theorem mem_alistSet {κ α : Type} [DecidableEq κ] (l : List (κ × α)) (k : κ) (v : α)
    (p : κ × α) (h : p ∈ alistSet l k v) : p ∈ l ∨ p = (k, v) := by
  induction l with
  | nil => simp [alistSet] at h; exact Or.inr h
  | cons hd rest ih =>
    by_cases hk : hd.1 = k
    · rw [alistSet, if_pos hk] at h
      rcases List.mem_cons.mp h with rfl | h
      · exact Or.inr rfl
      · exact Or.inl (List.mem_cons_of_mem hd h)
    · rw [alistSet, if_neg hk] at h
      rcases List.mem_cons.mp h with rfl | h
      · exact Or.inl (List.mem_cons_self p rest)
      · rcases ih h with h | h
        · exact Or.inl (List.mem_cons_of_mem hd h)
        · exact Or.inr h

theorem noEmpty_setdefaultAppend (qs : List (String × List Nat)) (k : String) (sid : Nat)
    (h : ∀ c l, (c, l) ∈ qs → l ≠ []) :
    ∀ c l, (c, l) ∈ setdefaultAppend qs k sid → l ≠ [] := by
  induction qs with
  | nil =>
    intro c l hm
    simp only [setdefaultAppend, List.mem_singleton, Prod.mk.injEq] at hm
    rw [hm.2]
    simp
  | cons p rest ih =>
    intro c l hm
    by_cases hk : p.1 = k
    · rw [setdefaultAppend, if_pos hk] at hm
      rcases List.mem_cons.mp hm with heq | hm
      · rw [Prod.mk.injEq] at heq
        rw [heq.2]
        simp
      · exact h c l (List.mem_cons_of_mem p hm)
    · rw [setdefaultAppend, if_neg hk] at hm
      rcases List.mem_cons.mp hm with heq | hm
      · exact h c l (heq ▸ List.mem_cons_self p rest)
      · exact ih (fun c l hcl => h c l (List.mem_cons_of_mem p hcl)) c l hm

/-- The `finally` cleanup preserves the no-empty-groups registry invariant:
a group is deleted as soon as it holds zero sinks, never kept empty. -/
theorem noEmptyGroups_unsubscribeOp (s : BusState) (cid : String) (sid : Nat)
    (h : noEmptyGroups s) : noEmptyGroups (unsubscribeOp s cid sid) := by
  intro c l hm
  rw [unsubscribeOp] at hm
  rcases hq : alistGet s.queues cid with _ | lst
  · rw [hq] at hm
    exact h c l hm
  · rw [hq] at hm
    dsimp only [] at hm
    by_cases hnil : (if sid ∈ lst then lst.erase sid else lst) = []
    · rw [if_pos hnil] at hm
      exact h c l (mem_alistRemove s.queues cid (c, l) hm)
    · rw [if_neg hnil] at hm
      rcases mem_alistSet s.queues cid _ (c, l) hm with hmem | heq
      · exact h c l hmem
      · rw [Prod.mk.injEq] at heq
        rw [heq.2]
        exact hnil

theorem noEmptyGroups_busStep (s : BusState) (op : BusOp) (h : noEmptyGroups s) :
    noEmptyGroups (busStep s op) := by
  cases op with
  | subscribe cid sid => exact fun c l hm => noEmpty_setdefaultAppend s.queues cid sid h c l hm
  | publish msg => exact h
  | unsubscribe cid sid => exact noEmptyGroups_unsubscribeOp s cid sid h

/-- C8: on every exit path of the consume loop — completion, cancellation or
unexpected error — the handler runs the same `finally` unregistration; under
the registry's well-formedness the sink is gone from its conversation's
group afterwards; and after any operation sequence from the initial state no
conversation retains an empty group. -/
theorem stream_cleanup_invariant :
    (∀ p s cid sid, generatorFinish p s cid sid = unsubscribeOp s cid sid) ∧
    (∀ s cid sid, (s.queues.map Prod.fst).Nodup → (qlist s cid).Nodup →
      sid ∉ qlist (unsubscribeOp s cid sid) cid) ∧
    (∀ ops, noEmptyGroups (runOps ops initBus)) := by
  refine ⟨fun p s cid sid => by cases p <;> rfl, ?_, ?_⟩
  · intro s cid sid hkeys hlst
    rw [unsubscribeOp]
    rcases hq : alistGet s.queues cid with _ | lst
    · simp [qlist, hq]
    · dsimp only []
      have hlst' : lst.Nodup := by
        rw [qlist, hq] at hlst
        exact hlst
      by_cases hnil : (if sid ∈ lst then lst.erase sid else lst) = []
      · rw [if_pos hnil]
        simp [qlist, alistGet_alistRemove_self s.queues cid hkeys]
      · rw [if_neg hnil]
        simp only [qlist, alistGet_alistSet_self, Option.getD_some]
        by_cases hin : sid ∈ lst
        · rw [if_pos hin]
          intro hmem
          exact ((List.Nodup.mem_erase_iff hlst').mp hmem).1 rfl
        · rw [if_neg hin]
          exact hin
  · intro ops
    have : ∀ ops s, noEmptyGroups s → noEmptyGroups (runOps ops s) := by
      intro ops
      induction ops with
      | nil => exact fun s h => h
      | cons op rest ih => exact fun s h => ih _ (noEmptyGroups_busStep s op h)
    exact this ops initBus (fun c l hm => by simp [initBus] at hm)

/-- C8 witness: the cleanup theorem applied to a concrete registry holding
one subscriber. -/
theorem stream_cleanup_invariant_witness :
    generatorFinish ExitPath.cancelled (runOps [BusOp.subscribe "a" 0] initBus) "a" 0 =
      unsubscribeOp (runOps [BusOp.subscribe "a" 0] initBus) "a" 0 ∧
    0 ∉ qlist (unsubscribeOp (runOps [BusOp.subscribe "a" 0] initBus) "a" 0) "a" :=
  ⟨stream_cleanup_invariant.1 ExitPath.cancelled (runOps [BusOp.subscribe "a" 0] initBus)
      "a" 0,
   stream_cleanup_invariant.2.1 (runOps [BusOp.subscribe "a" 0] initBus) "a" 0
     (by decide) (by decide)⟩

/-! ## Claim C1: fan-out delivery equals the envelopes published while
subscribed -/

theorem alistGet_alistModify_self {κ α : Type} [DecidableEq κ] (l : List (κ × α)) (k : κ)
    (f : α → α) : alistGet (alistModify l k f) k = (alistGet l k).map f := by
  induction l with
  | nil => rfl
  | cons p rest ih =>
    by_cases hk : p.1 = k
    · rw [alistModify, if_pos hk, alistGet, alistGet, if_pos hk, if_pos hk]
      rfl
    · rw [alistModify, if_neg hk, alistGet, alistGet, if_neg hk, if_neg hk]
      exact ih

theorem alistGet_alistModify_ne {κ α : Type} [DecidableEq κ] (l : List (κ × α)) (k k' : κ)
    (f : α → α) (h : ¬ k' = k) : alistGet (alistModify l k f) k' = alistGet l k' := by
  induction l with
  | nil => rfl
  | cons p rest ih =>
    by_cases hk : p.1 = k
    · rw [alistModify, if_pos hk, alistGet, alistGet]
      have : ¬ p.1 = k' := fun hc => h (hc ▸ hk ▸ rfl)
      rw [if_neg this, if_neg (hk ▸ this)]
    · rw [alistModify, if_neg hk, alistGet, alistGet]
      by_cases hp : p.1 = k'
      · rw [if_pos hp, if_pos hp]
      · rw [if_neg hp, if_neg hp]
        exact ih

theorem alistModify_keys {κ α : Type} [DecidableEq κ] (l : List (κ × α)) (k : κ)
    (f : α → α) : (alistModify l k f).map Prod.fst = l.map Prod.fst := by
  induction l with
  | nil => rfl
  | cons p rest ih =>
    by_cases hk : p.1 = k
    · rw [alistModify, if_pos hk]
      simp
    · rw [alistModify, if_neg hk]
      simp [ih]

theorem alistGet_alistSet_ne {κ α : Type} [DecidableEq κ] (l : List (κ × α)) (k k' : κ)
    (v : α) (h : ¬ k' = k) : alistGet (alistSet l k v) k' = alistGet l k' := by
  induction l with
  | nil =>
    have hne : ¬ k = k' := fun hc => h hc.symm
    simp [alistSet, alistGet, hne]
  | cons p rest ih =>
    by_cases hk : p.1 = k
    · rw [alistSet, if_pos hk, alistGet, alistGet,
        if_neg (fun hc : k = k' => h hc.symm), if_neg (hk ▸ fun hc : k = k' => h hc.symm)]
    · rw [alistSet, if_neg hk, alistGet, alistGet]
      by_cases hp : p.1 = k'
      · rw [if_pos hp, if_pos hp]
      · rw [if_neg hp, if_neg hp]
        exact ih

theorem alistSet_keys {κ α : Type} [DecidableEq κ] (l : List (κ × α)) (k : κ) (v : α)
    (h : k ∈ l.map Prod.fst) : (alistSet l k v).map Prod.fst = l.map Prod.fst := by
  induction l with
  | nil => simp at h
  | cons p rest ih =>
    by_cases hk : p.1 = k
    · rw [alistSet, if_pos hk]
      simp [hk]
    · rw [alistSet, if_neg hk]
      have : k ∈ rest.map Prod.fst := by
        simp only [List.map_cons, List.mem_cons] at h
        rcases h with h | h
        · exact absurd h.symm hk
        · exact h
      simp [ih this]

theorem alistGet_alistRemove_ne {κ α : Type} [DecidableEq κ] (l : List (κ × α)) (k k' : κ)
    (h : ¬ k' = k) : alistGet (alistRemove l k) k' = alistGet l k' := by
  induction l with
  | nil => rfl
  | cons p rest ih =>
    by_cases hk : p.1 = k
    · rw [alistRemove, if_pos hk, alistGet, if_neg (fun hc : p.1 = k' => h (hc ▸ hk ▸ rfl))]
    · rw [alistRemove, if_neg hk, alistGet, alistGet]
      by_cases hp : p.1 = k'
      · rw [if_pos hp, if_pos hp]
      · rw [if_neg hp, if_neg hp]
        exact ih

theorem keys_alistRemove_sublist {κ α : Type} [DecidableEq κ] (l : List (κ × α)) (k : κ) :
    List.Sublist ((alistRemove l k).map Prod.fst) (l.map Prod.fst) := by
  induction l with
  | nil => simp [alistRemove]
  | cons p rest ih =>
    by_cases hk : p.1 = k
    · rw [alistRemove, if_pos hk]
      simp only [List.map_cons]
      exact List.sublist_cons_of_sublist p.1 (List.Sublist.refl _)
    · rw [alistRemove, if_neg hk]
      simp only [List.map_cons]
      exact List.Sublist.cons₂ p.1 ih

theorem alistGet_isSome_of_mem_keys {κ α : Type} [DecidableEq κ] (l : List (κ × α)) (k : κ)
    (h : k ∈ l.map Prod.fst) : (alistGet l k).isSome = true := by
  induction l with
  | nil => simp at h
  | cons p rest ih =>
    by_cases hk : p.1 = k
    · rw [alistGet, if_pos hk]
      rfl
    · rw [alistGet, if_neg hk]
      refine ih ?_
      simp only [List.map_cons, List.mem_cons] at h
      rcases h with h | h
      · exact absurd h.symm hk
      · exact h

theorem alistGet_append {κ α : Type} [DecidableEq κ] (l1 l2 : List (κ × α)) (k : κ) :
    alistGet (l1 ++ l2) k =
      match alistGet l1 k with
      | some v => some v
      | none => alistGet l2 k := by
  induction l1 with
  | nil => rfl
  | cons p rest ih =>
    by_cases hk : p.1 = k
    · rw [List.cons_append, alistGet, if_pos hk, alistGet, if_pos hk]
    · rw [List.cons_append, alistGet, if_neg hk, alistGet, if_neg hk]
      exact ih

theorem deliver_keys (r : List (Nat × List OutboundMessage)) (sids : List Nat)
    (m : OutboundMessage) : (deliver r sids m).map Prod.fst = r.map Prod.fst := by
  induction sids generalizing r with
  | nil => rfl
  | cons x xs ih =>
    rw [deliver, List.foldl_cons]
    rw [show List.foldl (fun r sid => alistModify r sid (fun q => q ++ [m]))
      (alistModify r x (fun q => q ++ [m])) xs =
      deliver (alistModify r x (fun q => q ++ [m])) xs m from rfl]
    rw [ih, alistModify_keys]

theorem alistGet_deliver (sids : List Nat) (r : List (Nat × List OutboundMessage))
    (m : OutboundMessage) (k : Nat) (hnd : sids.Nodup) :
    alistGet (deliver r sids m) k =
      if k ∈ sids then (alistGet r k).map (fun q => q ++ [m]) else alistGet r k := by
  induction sids generalizing r with
  | nil => simp [deliver]
  | cons x xs ih =>
    rw [deliver, List.foldl_cons]
    rw [show List.foldl (fun r sid => alistModify r sid (fun q => q ++ [m]))
      (alistModify r x (fun q => q ++ [m])) xs =
      deliver (alistModify r x (fun q => q ++ [m])) xs m from rfl]
    rw [List.nodup_cons] at hnd
    rw [ih _ hnd.2]
    by_cases hkx : k = x
    · subst hkx
      rw [if_neg (fun hc => hnd.1 hc), if_pos (List.mem_cons_self k xs),
        alistGet_alistModify_self]
    · by_cases hks : k ∈ xs
      · rw [if_pos hks, if_pos (List.mem_cons_of_mem x hks),
          alistGet_alistModify_ne _ _ _ _ hkx]
      · rw [if_neg hks, if_neg (by simp [hkx, hks]),
          alistGet_alistModify_ne _ _ _ _ hkx]

theorem alistGet_setdefaultAppend_self (qs : List (String × List Nat)) (k : String)
    (sid : Nat) :
    alistGet (setdefaultAppend qs k sid) k = some ((alistGet qs k).getD [] ++ [sid]) := by
  induction qs with
  | nil => simp [setdefaultAppend, alistGet]
  | cons p rest ih =>
    by_cases hk : p.1 = k
    · rw [setdefaultAppend, if_pos hk, alistGet, if_pos hk, alistGet, if_pos hk]
      rfl
    · rw [setdefaultAppend, if_neg hk, alistGet, if_neg hk, alistGet, if_neg hk]
      exact ih

theorem alistGet_setdefaultAppend_ne (qs : List (String × List Nat)) (k k' : String)
    (sid : Nat) (h : ¬ k' = k) :
    alistGet (setdefaultAppend qs k sid) k' = alistGet qs k' := by
  induction qs with
  | nil =>
    have hne : ¬ k = k' := fun hc => h hc.symm
    simp [setdefaultAppend, alistGet, hne]
  | cons p rest ih =>
    by_cases hk : p.1 = k
    · rw [setdefaultAppend, if_pos hk, alistGet, alistGet]
      have : ¬ p.1 = k' := fun hc => h (hc ▸ hk ▸ rfl)
      rw [if_neg this, if_neg (hk ▸ this)]
    · rw [setdefaultAppend, if_neg hk, alistGet, alistGet]
      by_cases hp : p.1 = k'
      · rw [if_pos hp, if_pos hp]
      · rw [if_neg hp, if_neg hp]
        exact ih

theorem mem_keys_setdefaultAppend (qs : List (String × List Nat)) (k : String) (sid : Nat)
    (c : String) (h : c ∈ (setdefaultAppend qs k sid).map Prod.fst) :
    c ∈ qs.map Prod.fst ∨ c = k := by
  induction qs with
  | nil => simp [setdefaultAppend] at h; exact Or.inr h
  | cons p rest ih =>
    by_cases hk : p.1 = k
    · rw [setdefaultAppend, if_pos hk] at h
      simp only [List.map_cons, List.mem_cons] at h ⊢
      rcases h with h | h
      · exact Or.inl (Or.inl h)
      · exact Or.inl (Or.inr h)
    · rw [setdefaultAppend, if_neg hk] at h
      simp only [List.map_cons, List.mem_cons] at h ⊢
      rcases h with h | h
      · exact Or.inl (Or.inl h)
      · rcases ih h with h | h
        · exact Or.inl (Or.inr h)
        · exact Or.inr h

theorem nodup_keys_setdefaultAppend (qs : List (String × List Nat)) (k : String) (sid : Nat)
    (h : (qs.map Prod.fst).Nodup) : ((setdefaultAppend qs k sid).map Prod.fst).Nodup := by
  induction qs with
  | nil => simp [setdefaultAppend]
  | cons p rest ih =>
    simp only [List.map_cons, List.nodup_cons] at h
    by_cases hk : p.1 = k
    · rw [setdefaultAppend, if_pos hk]
      simp only [List.map_cons, List.nodup_cons]
      exact ⟨h.1, h.2⟩
    · rw [setdefaultAppend, if_neg hk]
      simp only [List.map_cons, List.nodup_cons]
      refine ⟨fun hc => ?_, ih h.2⟩
      rcases mem_keys_setdefaultAppend rest k sid p.1 hc with hm | hm
      · exact h.1 hm
      · exact hk hm

@[simp] theorem allSids_nil : allSids [] = [] := rfl

@[simp] theorem allSids_cons (p : String × List Nat) (qs : List (String × List Nat)) :
    allSids (p :: qs) = p.2 ++ allSids qs := by
  simp [allSids]

theorem allSids_setdefaultAppend_perm (qs : List (String × List Nat)) (k : String)
    (sid : Nat) :
    List.Perm (allSids (setdefaultAppend qs k sid)) (sid :: allSids qs) := by
  induction qs with
  | nil => simp [setdefaultAppend, allSids]
  | cons p rest ih =>
    by_cases hk : p.1 = k
    · rw [setdefaultAppend, if_pos hk, allSids_cons, allSids_cons]
      have h1 : List.Perm (p.2 ++ [sid]) (sid :: p.2) := List.perm_append_singleton sid p.2
      exact List.Perm.append_right _ h1
    · rw [setdefaultAppend, if_neg hk, allSids_cons, allSids_cons]
      exact (List.Perm.append_left p.2 ih).trans List.perm_middle

theorem getD_alistGet_nodup (qs : List (String × List Nat)) (k : String)
    (h : (allSids qs).Nodup) : ((alistGet qs k).getD []).Nodup := by
  induction qs with
  | nil => simp [alistGet]
  | cons p rest ih =>
    rw [allSids_cons, List.nodup_append] at h
    by_cases hk : p.1 = k
    · rw [alistGet, if_pos hk]
      exact h.1
    · rw [alistGet, if_neg hk]
      exact ih h.2.1

theorem mem_getD_alistGet_allSids (qs : List (String × List Nat)) (k : String) (sid : Nat)
    (h : sid ∈ (alistGet qs k).getD []) : sid ∈ allSids qs := by
  induction qs with
  | nil => simp [alistGet] at h
  | cons p rest ih =>
    rw [allSids_cons, List.mem_append]
    by_cases hk : p.1 = k
    · rw [alistGet, if_pos hk] at h
      exact Or.inl h
    · rw [alistGet, if_neg hk] at h
      exact Or.inr (ih h)

theorem getD_alistGet_disjoint (qs : List (String × List Nat)) (c1 c2 : String) (sid : Nat)
    (hkeys : (qs.map Prod.fst).Nodup) (hsids : (allSids qs).Nodup) (hne : ¬ c1 = c2)
    (h1 : sid ∈ (alistGet qs c1).getD []) (h2 : sid ∈ (alistGet qs c2).getD []) :
    False := by
  induction qs with
  | nil => simp [alistGet] at h1
  | cons p rest ih =>
    rw [List.map_cons, List.nodup_cons] at hkeys
    rw [allSids_cons, List.nodup_append] at hsids
    by_cases hp1 : p.1 = c1
    · rw [alistGet, if_pos hp1] at h1
      have hp2 : ¬ p.1 = c2 := fun hc => hne (hp1 ▸ hc ▸ rfl)
      rw [alistGet, if_neg hp2] at h2
      exact hsids.2.2 h1 (mem_getD_alistGet_allSids rest c2 sid h2)
    · rw [alistGet, if_neg hp1] at h1
      by_cases hp2 : p.1 = c2
      · rw [alistGet, if_pos hp2] at h2
        exact hsids.2.2 h2 (mem_getD_alistGet_allSids rest c1 sid h1)
      · rw [alistGet, if_neg hp2] at h2
        exact ih hkeys.2 hsids.2.1 h1 h2

theorem allSids_alistRemove_sublist (qs : List (String × List Nat)) (k : String) :
    List.Sublist (allSids (alistRemove qs k)) (allSids qs) := by
  induction qs with
  | nil => simp [alistRemove]
  | cons p rest ih =>
    by_cases hk : p.1 = k
    · rw [alistRemove, if_pos hk, allSids_cons]
      exact List.sublist_append_right p.2 (allSids rest)
    · rw [alistRemove, if_neg hk, allSids_cons, allSids_cons]
      exact List.Sublist.append_left ih p.2

theorem allSids_alistSet_sublist (qs : List (String × List Nat)) (k : String)
    (v w : List Nat) (hget : alistGet qs k = some w) (hv : List.Sublist v w) :
    List.Sublist (allSids (alistSet qs k v)) (allSids qs) := by
  induction qs with
  | nil => simp [alistGet] at hget
  | cons p rest ih =>
    by_cases hk : p.1 = k
    · rw [alistGet, if_pos hk] at hget
      rw [alistSet, if_pos hk, allSids_cons, allSids_cons]
      have : List.Sublist v p.2 := by
        rw [show p.2 = w from Option.some.inj hget]
        exact hv
      exact List.Sublist.append this (List.Sublist.refl _)
    · rw [alistGet, if_neg hk] at hget
      rw [alistSet, if_neg hk, allSids_cons, allSids_cons]
      exact List.Sublist.append_left (ih hget) p.2

/-- Registering a fresh sink does not change what any sink has received. -/
theorem sinkReceived_subscribeOp (s : BusState) (cid : String) (sid0 : Nat) :
    ∀ sid, sinkReceived (subscribeOp s cid sid0) sid = sinkReceived s sid := by
  intro sid
  rw [sinkReceived, sinkReceived, subscribeOp]
  dsimp only []
  rw [alistGet_append]
  rcases hg : alistGet s.received sid with _ | q
  · by_cases hs : sid0 = sid
    · simp [alistGet, hs]
    · simp [alistGet, hs]
  · simp

/-- `ManusWebChannel.send` appends the envelope to exactly the queues of the
sinks registered under the envelope's chat id or the wildcard key, in FIFO
position. -/
theorem sinkReceived_publishOp (s : BusState) (msg : OutboundMessage)
    (hkeys : (s.queues.map Prod.fst).Nodup) (hsids : (allSids s.queues).Nodup)
    (hcov : ∀ x, x ∈ allSids s.queues → x ∈ s.received.map Prod.fst)
    (hstar : ¬ msg.chat_id = "*") :
    ∀ sid, sinkReceived (publishOp s msg) sid =
      sinkReceived s sid ++
        (if sid ∈ qlist s msg.chat_id ∨ sid ∈ qlist s "*" then [msg] else []) := by
  intro sid
  rw [sinkReceived, publishOp]
  dsimp only []
  rw [alistGet_deliver (qlist s "*") _ msg sid (getD_alistGet_nodup s.queues "*" hsids),
    alistGet_deliver (qlist s msg.chat_id) _ msg sid
      (getD_alistGet_nodup s.queues msg.chat_id hsids)]
  by_cases hd : sid ∈ qlist s msg.chat_id
  · have hw : sid ∉ qlist s "*" := fun hw =>
      getD_alistGet_disjoint s.queues msg.chat_id "*" sid hkeys hsids hstar hd hw
    rw [if_neg hw, if_pos hd, if_pos (Or.inl hd)]
    have hex : sid ∈ s.received.map Prod.fst :=
      hcov sid (mem_getD_alistGet_allSids _ _ _ hd)
    rcases ho : alistGet s.received sid with _ | qv
    · have := alistGet_isSome_of_mem_keys s.received sid hex
      rw [ho] at this
      exact absurd this (by simp)
    · simp [sinkReceived, ho]
  · by_cases hw : sid ∈ qlist s "*"
    · rw [if_pos hw, if_neg hd, if_pos (Or.inr hw)]
      have hex : sid ∈ s.received.map Prod.fst :=
        hcov sid (mem_getD_alistGet_allSids _ _ _ hw)
      rcases ho : alistGet s.received sid with _ | qv
      · have := alistGet_isSome_of_mem_keys s.received sid hex
        rw [ho] at this
        exact absurd this (by simp)
      · simp [sinkReceived, ho]
    · rw [if_neg hw, if_neg hd, if_neg (by simp [hd, hw])]
      simp [sinkReceived]

/-- The `finally` cleanup erases exactly this sink from its conversation's
group and leaves every other group unchanged. -/
theorem qlist_unsubscribeOp (s : BusState) (cid : String) (sid0 : Nat)
    (hkeys : (s.queues.map Prod.fst).Nodup) :
    ∀ c, qlist (unsubscribeOp s cid sid0) c =
      if c = cid then (qlist s cid).erase sid0 else qlist s c := by
  intro c
  rw [unsubscribeOp]
  rcases hq : alistGet s.queues cid with _ | lst
  · by_cases hc : c = cid
    · subst hc
      rw [if_pos rfl]
      show qlist s c = (qlist s c).erase sid0
      rw [qlist, hq]
      rfl
    · rw [if_neg hc]
  · dsimp only []
    have hlst : (if sid0 ∈ lst then lst.erase sid0 else lst) = lst.erase sid0 := by
      by_cases hin : sid0 ∈ lst
      · rw [if_pos hin]
      · rw [if_neg hin, List.erase_of_not_mem hin]
    rw [hlst]
    by_cases hnil : lst.erase sid0 = []
    · rw [if_pos hnil]
      by_cases hc : c = cid
      · subst hc
        rw [if_pos rfl, qlist]
        dsimp only []
        rw [alistGet_alistRemove_self s.queues c hkeys, qlist, hq]
        simp [hnil]
      · rw [if_neg hc, qlist, qlist]
        dsimp only []
        rw [alistGet_alistRemove_ne s.queues cid c hc]
    · rw [if_neg hnil]
      by_cases hc : c = cid
      · subst hc
        rw [if_pos rfl, qlist]
        dsimp only []
        rw [alistGet_alistSet_self, qlist, hq]
        simp
      · rw [if_neg hc, qlist, qlist]
        dsimp only []
        rw [alistGet_alistSet_ne s.queues cid c _ hc]

theorem received_unsubscribeOp (s : BusState) (cid : String) (sid0 : Nat) :
    (unsubscribeOp s cid sid0).received = s.received := by
  rw [unsubscribeOp]
  rcases hq : alistGet s.queues cid with _ | lst
  · rfl
  · dsimp only []
    by_cases hnil : (if sid0 ∈ lst then lst.erase sid0 else lst) = []
    · rw [if_pos hnil]
    · rw [if_neg hnil]

theorem queues_unsubscribeOp_cases (s : BusState) (cid : String) (sid0 : Nat) :
    (unsubscribeOp s cid sid0).queues = s.queues ∨
    (unsubscribeOp s cid sid0).queues = alistRemove s.queues cid ∨
    ∃ lst, alistGet s.queues cid = some lst ∧
      (unsubscribeOp s cid sid0).queues =
        alistSet s.queues cid (if sid0 ∈ lst then lst.erase sid0 else lst) := by
  rw [unsubscribeOp]
  rcases hq : alistGet s.queues cid with _ | lst
  · exact Or.inl rfl
  · dsimp only []
    by_cases hnil : (if sid0 ∈ lst then lst.erase sid0 else lst) = []
    · rw [if_pos hnil]
      exact Or.inr (Or.inl rfl)
    · rw [if_neg hnil]
      exact Or.inr (Or.inr ⟨lst, rfl, rfl⟩)

theorem mem_keys_of_alistGet_some {κ α : Type} [DecidableEq κ] (l : List (κ × α)) (k : κ)
    (v : α) (h : alistGet l k = some v) : k ∈ l.map Prod.fst := by
  induction l with
  | nil => simp [alistGet] at h
  | cons p rest ih =>
    by_cases hk : p.1 = k
    · simp [hk]
    · rw [alistGet, if_neg hk] at h
      simp [ih h]

/-- The simulation invariant behind claim C1: running any well-formed
remainder of a trace from a state whose registry agrees with the
specification-side subscriptions extends each sink's received list by
exactly the envelopes the specification entitles it to. -/
theorem runOps_received_general :
    ∀ (ops : List BusOp) (s : BusState) (subs : List (Nat × String)),
      (s.queues.map Prod.fst).Nodup →
      (allSids s.queues).Nodup →
      (∀ cid sid, sid ∈ qlist s cid ↔ (sid, cid) ∈ subs) →
      (∀ x, x ∈ allSids s.queues → x ∈ s.received.map Prod.fst) →
      (s.received.map Prod.fst).Nodup →
      (∀ x, x ∈ subSids ops → x ∉ s.received.map Prod.fst) →
      (subSids ops).Nodup →
      ops.all pubOk = true →
      ∀ sid, sinkReceived (runOps ops s) sid =
        sinkReceived s sid ++ expectedFrom subs sid ops := by
  intro ops
  induction ops with
  | nil =>
    intro s subs _ _ _ _ _ _ _ _ sid
    simp [runOps, expectedFrom]
  | cons op rest ih =>
    intro s subs hkeys hsids hR1 hcov hrkeys hfresh hnodup hpub sid
    cases op with
    | subscribe cid sid0 =>
      have hsublist : subSids (BusOp.subscribe cid sid0 :: rest) = sid0 :: subSids rest := rfl
      rw [hsublist] at hfresh hnodup
      have hfresh0 : sid0 ∉ s.received.map Prod.fst :=
        hfresh sid0 (List.mem_cons_self _ _)
      have hnotall : sid0 ∉ allSids s.queues := fun hm => hfresh0 (hcov sid0 hm)
      have hkeys' : (((subscribeOp s cid sid0).queues).map Prod.fst).Nodup :=
        nodup_keys_setdefaultAppend s.queues cid sid0 hkeys
      have hperm := allSids_setdefaultAppend_perm s.queues cid sid0
      have hsids' : (allSids (subscribeOp s cid sid0).queues).Nodup :=
        hperm.nodup_iff.mpr (List.nodup_cons.mpr ⟨hnotall, hsids⟩)
      have hq_self : qlist (subscribeOp s cid sid0) cid = qlist s cid ++ [sid0] := by
        rw [qlist, qlist]
        show (alistGet (setdefaultAppend s.queues cid sid0) cid).getD [] = _
        rw [alistGet_setdefaultAppend_self]
        rfl
      have hq_ne : ∀ c, ¬ c = cid → qlist (subscribeOp s cid sid0) c = qlist s c := by
        intro c hc
        rw [qlist, qlist]
        show (alistGet (setdefaultAppend s.queues cid sid0) c).getD [] = _
        rw [alistGet_setdefaultAppend_ne s.queues cid c sid0 hc]
      have hR1' : ∀ c x, x ∈ qlist (subscribeOp s cid sid0) c ↔
          (x, c) ∈ subs ++ [(sid0, cid)] := by
        intro c x
        by_cases hc : c = cid
        · subst hc
          rw [hq_self, List.mem_append, List.mem_append, List.mem_singleton,
            List.mem_singleton, hR1 c x, Prod.mk.injEq]
          constructor
          · rintro (hx | rfl)
            · exact Or.inl hx
            · exact Or.inr ⟨rfl, rfl⟩
          · rintro (hx | ⟨rfl, h2⟩)
            · exact Or.inl hx
            · exact Or.inr rfl
        · rw [hq_ne c hc, List.mem_append, List.mem_singleton, hR1 c x, Prod.mk.injEq]
          constructor
          · exact fun hx => Or.inl hx
          · rintro (hx | ⟨rfl, h2⟩)
            · exact hx
            · exact absurd h2 hc
      have hrkeys_new : ((subscribeOp s cid sid0).received).map Prod.fst =
          s.received.map Prod.fst ++ [sid0] := by
        show ((s.received ++ [(sid0, [])]).map Prod.fst) = _
        simp
      have hcov' : ∀ x, x ∈ allSids (subscribeOp s cid sid0).queues →
          x ∈ ((subscribeOp s cid sid0).received).map Prod.fst := by
        intro x hx
        rw [hrkeys_new, List.mem_append, List.mem_singleton]
        rcases List.mem_cons.mp (hperm.mem_iff.mp hx) with rfl | hx
        · exact Or.inr rfl
        · exact Or.inl (hcov x hx)
      have hrkeys' : (((subscribeOp s cid sid0).received).map Prod.fst).Nodup := by
        rw [hrkeys_new]
        refine List.Nodup.append hrkeys (List.nodup_singleton sid0) ?_
        intro x hx hx0
        rw [List.mem_singleton] at hx0
        subst hx0
        exact hfresh0 hx
      have hfresh' : ∀ x, x ∈ subSids rest →
          x ∉ ((subscribeOp s cid sid0).received).map Prod.fst := by
        intro x hx
        rw [hrkeys_new, List.mem_append, List.mem_singleton]
        rintro (hmem | rfl)
        · exact hfresh x (List.mem_cons_of_mem _ hx) hmem
        · exact (List.nodup_cons.mp hnodup).1 hx
      have hstep := ih (subscribeOp s cid sid0) (subs ++ [(sid0, cid)]) hkeys' hsids'
        (fun c x => hR1' c x) hcov' hrkeys' hfresh' (List.nodup_cons.mp hnodup).2
        (by simp only [List.all_cons, Bool.and_eq_true] at hpub; exact hpub.2) sid
      rw [runOps, busStep, hstep, sinkReceived_subscribeOp s cid sid0 sid]
      rfl
    | publish msg =>
      have hstar : ¬ msg.chat_id = "*" := by
        simp only [List.all_cons, Bool.and_eq_true, pubOk, Bool.not_eq_true',
          beq_eq_false_iff_ne, ne_eq] at hpub
        exact hpub.1
      have hkeys' : (((publishOp s msg).queues).map Prod.fst).Nodup := hkeys
      have hsids' : (allSids (publishOp s msg).queues).Nodup := hsids
      have hR1' : ∀ c x, x ∈ qlist (publishOp s msg) c ↔ (x, c) ∈ subs := fun c x => hR1 c x
      have hrk : ((publishOp s msg).received).map Prod.fst = s.received.map Prod.fst := by
        show (deliver (deliver s.received (qlist s msg.chat_id) msg)
          (qlist s "*") msg).map Prod.fst = _
        rw [deliver_keys, deliver_keys]
      have hcov' : ∀ x, x ∈ allSids (publishOp s msg).queues →
          x ∈ ((publishOp s msg).received).map Prod.fst := by
        intro x hx
        rw [hrk]
        exact hcov x hx
      have hrkeys' : (((publishOp s msg).received).map Prod.fst).Nodup := by
        rw [hrk]; exact hrkeys
      have hfresh' : ∀ x, x ∈ subSids rest →
          x ∉ ((publishOp s msg).received).map Prod.fst := by
        intro x hx
        rw [hrk]
        exact hfresh x hx
      have hstep := ih (publishOp s msg) subs hkeys' hsids' hR1' hcov' hrkeys' hfresh'
        hnodup (by simp only [List.all_cons, Bool.and_eq_true] at hpub; exact hpub.2) sid
      rw [runOps, busStep, hstep,
        sinkReceived_publishOp s msg hkeys hsids hcov hstar sid]
      have hifs : (if sid ∈ qlist s msg.chat_id ∨ sid ∈ qlist s "*" then [msg] else []) =
          (if (sid, msg.chat_id) ∈ subs ∨ (sid, "*") ∈ subs then [msg] else []) :=
        if_congr (or_congr (hR1 msg.chat_id sid) (hR1 "*" sid)) rfl rfl
      rw [hifs, List.append_assoc]
      rfl
    | unsubscribe cid sid0 =>
      have hrec : (unsubscribeOp s cid sid0).received = s.received :=
        received_unsubscribeOp s cid sid0
      have hkeys' : (((unsubscribeOp s cid sid0).queues).map Prod.fst).Nodup := by
        rcases queues_unsubscribeOp_cases s cid sid0 with h | h | ⟨lst, hget, h⟩
        · rw [h]; exact hkeys
        · rw [h]; exact List.Nodup.sublist (keys_alistRemove_sublist s.queues cid) hkeys
        · rw [h, alistSet_keys s.queues cid _ (mem_keys_of_alistGet_some _ _ _ hget)]
          exact hkeys
      have hsids' : (allSids (unsubscribeOp s cid sid0).queues).Nodup := by
        rcases queues_unsubscribeOp_cases s cid sid0 with h | h | ⟨lst, hget, h⟩
        · rw [h]; exact hsids
        · rw [h]; exact List.Nodup.sublist (allSids_alistRemove_sublist s.queues cid) hsids
        · rw [h]
          refine List.Nodup.sublist
            (allSids_alistSet_sublist s.queues cid _ lst hget ?_) hsids
          by_cases hin : sid0 ∈ lst
          · rw [if_pos hin]; exact List.erase_sublist sid0 lst
          · rw [if_neg hin]
      have hsub_allSids : ∀ x, x ∈ allSids (unsubscribeOp s cid sid0).queues →
          x ∈ allSids s.queues := by
        rcases queues_unsubscribeOp_cases s cid sid0 with h | h | ⟨lst, hget, h⟩
        · rw [h]; exact fun x hx => hx
        · rw [h]; exact fun x hx => (allSids_alistRemove_sublist s.queues cid).mem hx
        · rw [h]
          intro x hx
          refine (allSids_alistSet_sublist s.queues cid _ lst hget ?_).mem hx
          by_cases hin : sid0 ∈ lst
          · rw [if_pos hin]; exact List.erase_sublist sid0 lst
          · rw [if_neg hin]
      have hR1' : ∀ c x, x ∈ qlist (unsubscribeOp s cid sid0) c ↔
          (x, c) ∈ subs.filter
            (fun p => !(decide (p.1 = sid0) && decide (p.2 = cid))) := by
        intro c x
        rw [qlist_unsubscribeOp s cid sid0 hkeys c]
        simp only [List.mem_filter]
        by_cases hc : c = cid
        · subst hc
          rw [if_pos rfl]
          have hq : (qlist s c).Nodup := getD_alistGet_nodup s.queues c hsids
          rw [hq.mem_erase_iff, hR1 c x]
          constructor
          · rintro ⟨hne, hx⟩
            refine ⟨hx, ?_⟩
            simp [hne]
          · rintro ⟨hx, hf⟩
            refine ⟨?_, hx⟩
            intro hxe
            subst hxe
            simp at hf
        · rw [if_neg hc, hR1 c x]
          constructor
          · intro hx
            refine ⟨hx, ?_⟩
            simp [hc]
          · rintro ⟨hx, h2⟩
            exact hx
      have hcov' : ∀ x, x ∈ allSids (unsubscribeOp s cid sid0).queues →
          x ∈ ((unsubscribeOp s cid sid0).received).map Prod.fst := by
        intro x hx
        rw [hrec]
        exact hcov x (hsub_allSids x hx)
      have hrkeys' : (((unsubscribeOp s cid sid0).received).map Prod.fst).Nodup := by
        rw [hrec]; exact hrkeys
      have hfresh' : ∀ x, x ∈ subSids rest →
          x ∉ ((unsubscribeOp s cid sid0).received).map Prod.fst := by
        intro x hx
        rw [hrec]
        exact hfresh x hx
      have hstep := ih (unsubscribeOp s cid sid0) _ hkeys' hsids' hR1' hcov' hrkeys'
        hfresh' hnodup
        (by simp only [List.all_cons, Bool.and_eq_true] at hpub; exact hpub.2) sid
      rw [runOps, busStep, hstep]
      have hsr : sinkReceived (unsubscribeOp s cid sid0) sid = sinkReceived s sid := by
        rw [sinkReceived, hrec, sinkReceived]
      rw [hsr]
      rfl

/-- C1: over any well-formed sequence of subscribe/publish/unsubscribe
operations, each sink receives exactly the envelopes published to its
conversation id (or to any id, for a wildcard sink) while it was subscribed,
in publish order; and publishing to a conversation id with no registered
sinks — direct or wildcard — is a no-op on the channel state, not an
error. -/
theorem bus_fanout_fifo (ops : List BusOp) (hwf : WFops ops) :
    (∀ sid, sinkReceived (runOps ops initBus) sid = expectedFrom [] sid ops) ∧
    (∀ s msg, qlist s msg.chat_id = [] → qlist s "*" = [] → publishOp s msg = s) := by
  constructor
  · intro sid
    have hrun := runOps_received_general ops initBus []
      (by simp [initBus])
      (by simp [initBus, allSids])
      (fun cid sid => by simp [initBus, qlist, alistGet])
      (fun x hx => by simp [initBus, allSids] at hx)
      (by simp [initBus])
      (fun x hx => by simp [initBus])
      hwf.1 hwf.2 sid
    rw [hrun]
    simp [sinkReceived, initBus, alistGet]
  · intro s msg h1 h2
    rw [publishOp, h1, h2]
    rfl

/-- A concrete operation trace: one subscriber on conversation `"a"`, a
wildcard subscriber joining mid-stream, and an unsubscribe before the last
publish. -/
def demoTrace : List BusOp :=
  [BusOp.subscribe "a" 0, BusOp.publish demoMsg1, BusOp.subscribe "*" 1,
   BusOp.publish demoMsg2, BusOp.unsubscribe "a" 0, BusOp.publish demoMsg3]

/-- C1 witness: on the concrete trace, sink 0 receives exactly the two
envelopes published to `"a"` while it was subscribed, and the wildcard
sink 1 receives every envelope published after it joined, in publish
order. -/
theorem bus_fanout_fifo_witness :
    sinkReceived (runOps demoTrace initBus) 0 = [demoMsg1, demoMsg2] ∧
    sinkReceived (runOps demoTrace initBus) 1 = [demoMsg2, demoMsg3] :=
  ⟨((bus_fanout_fifo demoTrace ⟨by decide, by decide⟩).1 0).trans rfl,
   ((bus_fanout_fifo demoTrace ⟨by decide, by decide⟩).1 1).trans rfl⟩
